import Mathlib

/-!
Verification of the aircraft boarding simulation engine
(`src/aircraft/mod.rs`, `src/aircraft/person.rs`, and the tile module it
declares) against its natural-language specification.

The Rust source is shallowly embedded below: `u16`/`usize` quantities become
`Nat`, vectors become lists, and any execution path that panics in Rust
(integer underflow, out-of-bounds `Vec` indexing, `Option::unwrap` on `None`)
is modelled by returning `none` in the `Option` monad.

Rust's `f32` arithmetic inside `determine_move` only ever handles integers of
magnitude at most `2 * 65536`, which `f32` represents exactly, so Manhattan
distances are modelled by exact `Nat` arithmetic.  The cast
`(i as f32 - 1.0) as usize` saturates at zero in Rust, which coincides with
truncated subtraction on `Nat`; in the `Seat` branch of `determine_move` no
cast back to `usize` occurs, so there destinations are modelled as `Int`.
-/

namespace AircraftSim

/-- Tile kinds, from the `Variant` enum of the tile module. -/
inductive Variant
  | Aisle
  | Seat
  | Entrance
  | None
deriving DecidableEq

/-- A passenger, from `Person` in `src/aircraft/person.rs`.  The `name` and
`seat` fields are in that file.  The `baggage` field is modelled from the
spec: the checked-in copy of `person.rs` does not contain it, but
`src/aircraft/mod.rs` calls `has_baggage`/`remove_baggage`/`set_baggage`, and
the spec states `baggage : bool — if true, the passenger must Stow (one tick)
before settling into their seat row.` -/
structure Person where
  name : String
  seat : Option (Nat × Nat)
  baggage : Bool
deriving DecidableEq

/-- `Person::new` — no target seat, and (per the spec's baggage default for
the passenger file format) no baggage. -/
def Person.new (n : String) : Person :=
  { name := n, seat := none, baggage := false }

/-- `Person::target_seat`. -/
def Person.target_seat (p : Person) (x y : Nat) : Person :=
  { p with seat := some (x, y) }

/-- `Person::set_baggage` (modelled from the spec, see `Person.baggage`). -/
def Person.set_baggage (p : Person) (b : Bool) : Person :=
  { p with baggage := b }

/-- `Person::has_baggage` (modelled from the spec, see `Person.baggage`). -/
def Person.has_baggage (p : Person) : Bool :=
  p.baggage

/-- `Person::remove_baggage` (modelled from the spec, see `Person.baggage`). -/
def Person.remove_baggage (p : Person) : Person :=
  { p with baggage := false }

/-- `Person::get_seat`. -/
def Person.get_seat (p : Person) : Option (Nat × Nat) :=
  p.seat

/-- The `Behaviour` enum returned by the movement policy.  `Stow` is used by
`src/aircraft/mod.rs` although the checked-in `person.rs` omits it; it is
modelled from the spec (`one of {Wait, Stow, MoveN, MoveS, MoveE, MoveW}`). -/
inductive Behaviour
  | Move_North
  | Move_South
  | Move_East
  | Move_West
  | Wait
  | Stow
deriving DecidableEq

/-- Modelled from the spec: the tile module (`src/aircraft/tile.rs`) is
declared by `src/aircraft/mod.rs` but its source is not in the tree.  Fields
follow spec §3 "Tile state": a kind, a primary occupant, a transient second
occupant, the per-tick `updated` flag and the `pass_count` flag. -/
structure Tile where
  variant : Variant
  occupier : Option Person
  passer : Option Person
  updated : Bool
  pass_count : Bool
deriving DecidableEq

/-- Modelled from the spec: `aisle()` constructor, an empty tile. -/
def Tile.aisle : Tile :=
  { variant := Variant.Aisle, occupier := none, passer := none,
    updated := false, pass_count := false }

/-- Modelled from the spec: `seat()` constructor, an empty tile. -/
def Tile.seat : Tile :=
  { Tile.aisle with variant := Variant.Seat }

/-- Modelled from the spec: `entrance()` constructor, an empty tile. -/
def Tile.entrance : Tile :=
  { Tile.aisle with variant := Variant.Entrance }

/-- Modelled from the spec: `none()` constructor, an empty impassable tile. -/
def Tile.none : Tile :=
  { Tile.aisle with variant := Variant.None }

/-- Modelled from the spec: `get_variant()`. -/
def Tile.get_variant (t : Tile) : Variant :=
  t.variant

/-- Modelled from the spec: `is_occupied()` is true iff `occupier.is_some()`. -/
def Tile.is_occupied (t : Tile) : Bool :=
  t.occupier.isSome

/-- Modelled from the spec: `is_allowing()` is true iff `passer.is_some()`. -/
def Tile.is_allowing (t : Tile) : Bool :=
  t.passer.isSome

/-- Modelled from the spec: `has_updated()`. -/
def Tile.has_updated (t : Tile) : Bool :=
  t.updated

/-- Modelled from the spec: `occupy(p)` sets `occupier = Some(p)` and
`updated = true`. -/
def Tile.occupy (t : Tile) (p : Person) : Tile :=
  { t with occupier := some p, updated := true }

/-- Modelled from the spec: `free()` takes the occupier, leaves the tile
empty of primary and sets `updated = true`.  The caller in
`src/aircraft/mod.rs` unwraps the returned option. -/
def Tile.free (t : Tile) : Option Person × Tile :=
  (t.occupier, { t with occupier := Option.none, updated := true })

/-- Modelled from the spec: `pass_in(p)` sets `passer = Some(p)`,
`pass_count = true` and `updated = true`. -/
def Tile.pass_in (t : Tile) (p : Person) : Tile :=
  { t with passer := some p, pass_count := true, updated := true }

/-- Modelled from the spec: `pass_out()` takes the passer, clears
`pass_count` and sets `updated = true`; taking an absent passer panics. -/
def Tile.pass_out (t : Tile) : Option (Person × Tile) :=
  t.passer.map fun p =>
    (p, { t with passer := Option.none, pass_count := false, updated := true })

/-- Modelled from the spec: `set_updated(bool)`. -/
def Tile.set_updated (t : Tile) (b : Bool) : Tile :=
  { t with updated := b }

/-- The `Aircraft` struct of `src/aircraft/mod.rs`. -/
structure Aircraft where
  size : Nat × Nat
  layout : List (List Tile)
  passengers : List Person
  targeted_seats : List (Nat × Nat)
deriving DecidableEq

/-- `MAX_ITERATIONS` from `src/aircraft/mod.rs`. -/
def MAX_ITERATIONS : Nat := 1000

/-- `Aircraft::new` followed by `clear()`: a `size.0 × size.1` grid of aisle
tiles, stored column-major exactly as the Rust builds `layout` (outer index
`x`, inner index `y`). -/
def Aircraft.new (x y : Nat) : Aircraft :=
  { size := (x, y),
    layout := List.replicate x (List.replicate y Tile.aisle),
    passengers := [],
    targeted_seats := [] }

/-- `self.layout[x][y]` as an option: `none` models the panic of
out-of-bounds `Vec` indexing. -/
def getTile (a : Aircraft) (x y : Nat) : Option Tile :=
  (a.layout.get? x).bind fun col => col.get? y

/-- Replace the tile at `(x, y)` by `f` applied to it; `none` models the
panic of out-of-bounds `Vec` indexing. -/
def modifyTile (a : Aircraft) (x y : Nat) (f : Tile → Tile) : Option Aircraft := do
  let col ← a.layout.get? x
  let t ← col.get? y
  pure { a with layout := a.layout.set x (col.set y (f t)) }

/-- `Aircraft::add_passenger`: push the seat (when present) onto
`targeted_seats` and push the passenger onto `passengers`. -/
def Aircraft.add_passenger (a : Aircraft) (p : Person) : Aircraft :=
  { a with
    targeted_seats :=
      match p.get_seat with
      | some s => a.targeted_seats ++ [s]
      | none => a.targeted_seats,
    passengers := a.passengers ++ [p] }

/-- `Aircraft::set_tile`: replace the tile with a fresh empty tile of the
given variant (panics when out of bounds). -/
def Aircraft.set_tile (a : Aircraft) (x y : Nat) (var : Variant) : Option Aircraft :=
  modifyTile a x y fun _ =>
    match var with
    | Variant.Aisle => Tile.aisle
    | Variant.Seat => Tile.seat
    | Variant.Entrance => Tile.entrance
    | Variant.None => Tile.none

/-- Exact value of the `f32` Manhattan distance
`(tx - dx).abs() + (ty - dy).abs()` computed in `determine_move`. -/
def manhattan (tx ty dx dy : Nat) : Nat :=
  ((tx : Int) - (dx : Int)).natAbs + ((ty : Int) - (dy : Int)).natAbs

/-- Manhattan distance with `Int` destination coordinates, for the `Seat`
branch of `determine_move` where no cast back to `usize` occurs. -/
def manhattanI (tx ty : Nat) (dx dy : Int) : Nat :=
  ((tx : Int) - dx).natAbs + ((ty : Int) - dy).natAbs

/-- Destination of a candidate move in the Aisle/Entrance branch of
`determine_move`: the Rust adds `±1.0` in `f32` and casts back to `usize`,
which saturates at zero, i.e. truncated `Nat` subtraction. -/
def destA (mv : Behaviour) (i j : Nat) : Nat × Nat :=
  match mv with
  | Behaviour.Wait => (i, j)
  | Behaviour.Move_North => (i, j - 1)
  | Behaviour.Move_South => (i, j + 1)
  | Behaviour.Move_East => (i + 1, j)
  | Behaviour.Move_West => (i - 1, j)
  | Behaviour.Stow => (i, j)

/-- Destination of a candidate move in the Seat branch of `determine_move`,
kept in `f32` (no `usize` cast), hence modelled over `Int`. -/
def destS (mv : Behaviour) (i j : Nat) : Int × Int :=
  match mv with
  | Behaviour.Move_East => ((i : Int) + 1, (j : Int))
  | Behaviour.Move_West => ((i : Int) - 1, (j : Int))
  | _ => ((i : Int), (j : Int))

/-- One iteration of the candidate loop in the Aisle/Entrance branch of
`determine_move`: keep `best` unless the candidate's distance is strictly
smaller, the east/west row restriction holds, and the destination tile is
free, is the current cell, or is a non-allowing occupied seat.  Indexing the
destination tile out of bounds panics (`none`). -/
def aisleStep (a : Aircraft) (i j tx ty : Nat) (best : Behaviour × Nat)
    (mv : Behaviour) : Option (Behaviour × Nat) :=
  if manhattan tx ty (destA mv i j).1 (destA mv i j).2 < best.2 then
    if (mv = Behaviour.Move_East ∧ (destA mv i j).2 ≠ ty) ∨
        (mv = Behaviour.Move_West ∧ (destA mv i j).2 ≠ ty) then
      pure best
    else do
      let t ← getTile a (destA mv i j).1 (destA mv i j).2
      if ¬ t.is_occupied ∨ destA mv i j = (i, j) then
        pure (mv, manhattan tx ty (destA mv i j).1 (destA mv i j).2)
      else if ¬ t.is_allowing ∧ t.get_variant = Variant.Seat then
        pure (mv, manhattan tx ty (destA mv i j).1 (destA mv i j).2)
      else
        pure best
  else
    pure best

/-- One iteration of the candidate loop in the Seat branch of
`determine_move`: no occupancy check at all, pure distance comparison. -/
def seatStep (i j tx ty : Nat) (best : Behaviour × Nat)
    (mv : Behaviour) : Behaviour × Nat :=
  let d := destS mv i j
  let nd := manhattanI tx ty d.1 d.2
  if nd < best.2 then (mv, nd) else best

/-- `Aircraft::determine_move`.  The initial best is `(Wait, 1000.0)`; the
Aisle/Entrance branch returns `Stow` when on the target row with baggage and
otherwise folds `aisleStep` over Wait, North, South, East, West in order; the
Seat branch folds `seatStep` over Wait, East, West; any other variant returns
the initial best. -/
def determine_move (a : Aircraft) (i j tx ty : Nat) (baggage : Bool) :
    Option (Behaviour × Nat) := do
  let t ← getTile a i j
  if t.get_variant = Variant.Aisle ∨ t.get_variant = Variant.Entrance then
    if ty = j ∧ baggage = true then
      pure (Behaviour.Stow, 0)
    else do
      let b ← aisleStep a i j tx ty (Behaviour.Wait, 1000) Behaviour.Wait
      let b ← aisleStep a i j tx ty b Behaviour.Move_North
      let b ← aisleStep a i j tx ty b Behaviour.Move_South
      let b ← aisleStep a i j tx ty b Behaviour.Move_East
      let b ← aisleStep a i j tx ty b Behaviour.Move_West
      pure b
  else if t.get_variant = Variant.Seat then
    pure (seatStep i j tx ty
      (seatStep i j tx ty
        (seatStep i j tx ty (Behaviour.Wait, 1000) Behaviour.Wait)
        Behaviour.Move_East)
      Behaviour.Move_West)
  else
    pure (Behaviour.Wait, 1000)

/-- The destination computed by the directional dispatch inside
`Aircraft::update`: `(x, y - 1)`, `(x, y + 1)`, `(x + 1, y)`, `(x - 1, y)` in
`usize` arithmetic, so subtraction at zero panics (`none`); the defensive
default arm stays at `(x, y)`. -/
def coordsOf (mv : Behaviour) (x y : Nat) : Option (Nat × Nat) :=
  match mv with
  | Behaviour.Move_North => if y = 0 then none else some (x, y - 1)
  | Behaviour.Move_South => some (x, y + 1)
  | Behaviour.Move_East => some (x + 1, y)
  | Behaviour.Move_West => if x = 0 then none else some (x - 1, y)
  | _ => some (x, y)

/-- Phase (a) of the `Aircraft::update` scan body: move the primary occupant
of `(x, y)` according to the policy.  Reading the seat of a passenger without
one is the `get_seat().unwrap()` of the Rust and panics (`none`). -/
def phaseA (a : Aircraft) (x y : Nat) : Option Aircraft := do
  let t ← getTile a x y
  match t.occupier with
  | none => pure a
  | some p => do
    let target ← p.get_seat
    let bm ← determine_move a x y target.1 target.2 p.has_baggage
    if bm.1 ≠ Behaviour.Wait ∧ bm.1 ≠ Behaviour.Stow then do
      let c ← coordsOf bm.1 x y
      let td ← getTile a c.1 c.2
      if ¬ td.is_occupied then do
        let a₁ ← modifyTile a x y fun s => (Tile.free s).2
        modifyTile a₁ c.1 c.2 fun d => Tile.occupy d p
      else if ¬ td.is_allowing then do
        let a₁ ← modifyTile a x y fun s => (Tile.free s).2
        modifyTile a₁ c.1 c.2 fun d => Tile.pass_in d p
      else
        pure a
    else if bm.1 = Behaviour.Stow then
      modifyTile a x y fun s => { s with occupier := some p.remove_baggage }
    else
      pure a

/-- Phase (b) of the `Aircraft::update` scan body: move the passer of
`(x, y)` when `is_allowing()` and `pass_count` hold, using `pass_out` on the
source side. -/
def phaseB (a : Aircraft) (x y : Nat) : Option Aircraft := do
  let t ← getTile a x y
  if t.is_allowing = true ∧ t.pass_count = true then do
    let p ← t.passer
    let target ← p.get_seat
    let bm ← determine_move a x y target.1 target.2 p.has_baggage
    if bm.1 ≠ Behaviour.Wait ∧ bm.1 ≠ Behaviour.Stow then do
      let c ← coordsOf bm.1 x y
      let td ← getTile a c.1 c.2
      if ¬ td.is_occupied then do
        let a₁ ← modifyTile a x y fun s =>
          { s with passer := none, pass_count := false, updated := true }
        modifyTile a₁ c.1 c.2 fun d => Tile.occupy d p
      else if ¬ td.is_allowing then do
        let a₁ ← modifyTile a x y fun s =>
          { s with passer := none, pass_count := false, updated := true }
        modifyTile a₁ c.1 c.2 fun d => Tile.pass_in d p
      else
        pure a
    else if bm.1 = Behaviour.Stow then
      modifyTile a x y fun s => { s with passer := some p.remove_baggage }
    else
      pure a
  else
    pure a

/-- Phase (c) of the `Aircraft::update` scan body: an `Entrance` tile with a
non-empty boarding queue and no occupier pops the back of the queue and
occupies the tile with that passenger. -/
def phaseC (a : Aircraft) (x y : Nat) : Option Aircraft := do
  let t ← getTile a x y
  if t.get_variant = Variant.Entrance ∧ a.passengers.length > 0 ∧
      ¬ t.is_occupied then do
    let p ← a.passengers.getLast?
    modifyTile { a with passengers := a.passengers.dropLast } x y
      fun d => Tile.occupy d p
  else
    pure a

/-- The body of the nested scan loop in `Aircraft::update`: a cell whose tile
is not yet updated and whose variant is Entrance, Aisle or Seat goes through
phases (a), (b), (c); other cells are left alone. -/
def processCell (a : Aircraft) (x y : Nat) : Option Aircraft := do
  let t ← getTile a x y
  if ¬ t.has_updated = true ∧ (t.get_variant = Variant.Entrance ∨
      t.get_variant = Variant.Aisle ∨ t.get_variant = Variant.Seat) then do
    let a₁ ← phaseA a x y
    let a₂ ← phaseB a₁ x y
    phaseC a₂ x y
  else
    pure a

/-- The row-major scan order of `Aircraft::update`: `x` outer over
`[0, sx)`, `y` inner over `[0, sy)`. -/
def cellList (sx sy : Nat) : List (Nat × Nat) :=
  (List.range sx).flatMap fun x => (List.range sy).map fun y => (x, y)

/-- The full scan of `Aircraft::update` before the final `reset()`. -/
def scanAll (a : Aircraft) : Option Aircraft :=
  (cellList a.size.1 a.size.2).foldlM (fun s c => processCell s c.1 c.2) a

/-- `Aircraft::reset`: `set_updated(false)` on every cell of the grid. -/
def reset (a : Aircraft) : Option Aircraft :=
  (cellList a.size.1 a.size.2).foldlM
    (fun s c => modifyTile s c.1 c.2 fun t => t.set_updated false) a

/-- `Aircraft::update`: one full scan followed by `reset()`. -/
def update (a : Aircraft) : Option Aircraft := do
  let a₁ ← scanAll a
  reset a₁

/-- `Aircraft::is_complete`: `complete` starts `true` and is cleared by any
targeted seat whose tile `is_occupied()` is false; indexing a targeted seat
out of bounds panics (`none`). -/
def is_complete (a : Aircraft) : Option Bool :=
  a.targeted_seats.foldlM
    (fun complete s => (getTile a s.1 s.2).map fun t => complete && t.is_occupied)
    true

/-- The loop of `Aircraft::run_to_completion`, carrying the iteration
counter. -/
def rtcAux (a : Aircraft) (iterations : Nat) :
    Option (Except String Nat × Aircraft) := do
  let c ← is_complete a
  if h : c = false ∧ iterations < MAX_ITERATIONS then do
    let a' ← update a
    rtcAux a' (iterations + 1)
  else if c = true then
    pure (Except.ok iterations, a)
  else
    pure (Except.error "Passengers could not all be seated.", a)
termination_by MAX_ITERATIONS - iterations
decreasing_by
  have := h.2
  simp only [MAX_ITERATIONS] at *
  omega

/-- `Aircraft::run_to_completion`: loop `update()` while not complete and
fewer than `MAX_ITERATIONS` iterations have run; return `Ok` with the
iteration count when complete, the failure string otherwise. -/
def run_to_completion (a : Aircraft) : Option (Except String Nat × Aircraft) :=
  rtcAux a 0

/-- `Aircraft::get_size`. -/
def Aircraft.get_size (a : Aircraft) : Nat × Nat :=
  a.size

/-- `Aircraft::check_if_occupied` (panics out of bounds). -/
def Aircraft.check_if_occupied (a : Aircraft) (x y : Nat) : Option Bool :=
  (getTile a x y).map Tile.is_occupied

/-- `Aircraft::check_if_allowing` (panics out of bounds). -/
def Aircraft.check_if_allowing (a : Aircraft) (x y : Nat) : Option Bool :=
  (getTile a x y).map Tile.is_allowing

/-!
Observation vocabulary used by the theorems: passenger keys and their grid
positions, one-step adjacency, and the acceptance conditions of the
Aisle/Entrance candidate loop.
-/

/-- The identity of a passenger as observable across a tick: name and target
seat.  (`Stow` clears the baggage flag in place, so the flag cannot be part
of a passenger's identity.) -/
def pkey (p : Person) : String × Option (Nat × Nat) :=
  (p.name, p.seat)

/-- The keys of the passengers held by a tile (occupier first, passer
second). -/
def tileKeys (t : Tile) : List (String × Option (Nat × Nat)) :=
  (t.occupier.map pkey).toList ++ (t.passer.map pkey).toList

/-- The keys of the passengers held by the tile at `(x, y)` (empty when out
of bounds). -/
def slotKeys (a : Aircraft) (x y : Nat) : List (String × Option (Nat × Nat)) :=
  match getTile a x y with
  | some t => tileKeys t
  | none => []

/-- `(x₀, y₀)` and `(x, y)` are equal or exactly one grid step (north, south,
east or west) apart. -/
def adjOrEq (x₀ y₀ x y : Nat) : Prop :=
  (x₀ = x ∧ y₀ = y) ∨ (x₀ = x ∧ y = y₀ + 1) ∨ (x₀ = x ∧ y₀ = y + 1) ∨
  (y₀ = y ∧ x = x₀ + 1) ∨ (y₀ = y ∧ x₀ = x + 1)

instance (x₀ y₀ x y : Nat) : Decidable (adjOrEq x₀ y₀ x y) := by
  unfold adjOrEq; infer_instance

/-- The east/west row restriction of the Aisle/Entrance candidate loop: a
lateral candidate is only legal when its destination row is the target
row. -/
def rowOK (mv : Behaviour) (ty dy : Nat) : Prop :=
  (mv = Behaviour.Move_East ∨ mv = Behaviour.Move_West) → dy = ty

instance (mv : Behaviour) (ty dy : Nat) : Decidable (rowOK mv ty dy) := by
  unfold rowOK; infer_instance

/-- The acceptance condition of the Aisle/Entrance candidate loop: the
destination tile exists and is not occupied, or is the current cell, or is an
occupied but not allowing `Seat`. -/
def accB (a : Aircraft) (i j : Nat) (mv : Behaviour) : Bool :=
  match getTile a (destA mv i j).1 (destA mv i j).2 with
  | some t =>
    (! t.is_occupied) || decide (destA mv i j = (i, j)) ||
      (t.is_occupied && ! t.is_allowing && decide (t.get_variant = Variant.Seat))
  | none => false

/-!
Concrete states used as inputs of the example-based theorems below.  Each is
built only through the public configuration interface (`new`, `set_tile`,
`add_passenger`) followed by `update` calls, so each is a reachable state.
-/

/-- The view of a (possibly missing) tile that the movement policy consults:
its kind, whether it is occupied, and whether it is allowing. -/
def viewT (o : Option Tile) : Option (Variant × Bool × Bool) :=
  o.map fun t => (t.get_variant, t.is_occupied, t.is_allowing)

/-- A passenger already seated on their target seat `(0, 0)`. -/
def davePerson : Person :=
  { name := "Dave", seat := some (0, 0), baggage := false }

/-- A 1×1 cabin whose only tile is a seat occupied by `davePerson`. -/
def seatedAir : Aircraft :=
  { size := (1, 1),
    layout := [[{ variant := Variant.Seat,
                  occupier := some davePerson,
                  passer := none,
                  updated := false,
                  pass_count := false }]],
    passengers := [],
    targeted_seats := [(0, 0)] }

/-- A passenger in the aisle heading for the occupied seat `(1, 0)`. -/
def paxAisle : Person :=
  { name := "A", seat := some (1, 0), baggage := false }

/-- A passenger already seated on `(1, 0)`. -/
def paxSeated : Person :=
  { name := "B", seat := some (1, 0), baggage := false }

/-- A 2×1 cabin: `paxAisle` stands on the aisle tile `(0, 0)` next to the
seat `(1, 0)` occupied by `paxSeated` — the squeeze-past situation. -/
def squeezeAir : Aircraft :=
  { size := (2, 1),
    layout := [[{ variant := Variant.Aisle,
                  occupier := some paxAisle,
                  passer := none,
                  updated := false,
                  pass_count := false }],
               [{ variant := Variant.Seat,
                  occupier := some paxSeated,
                  passer := none,
                  updated := false,
                  pass_count := false }]],
    passengers := [],
    targeted_seats := [(1, 0)] }

/-- A 1×1 entrance cabin with one queued passenger, the C7 witness input. -/
def entranceAir : Aircraft :=
  { size := (1, 1),
    layout := [[Tile.entrance]],
    passengers := [davePerson],
    targeted_seats := [(0, 0)] }

/-- A 1×1 cabin with an entrance and a queued passenger without a target
seat: the failing input of claim C3. -/
def c3Aircraft : Option Aircraft :=
  ((Aircraft.new 1 1).set_tile 0 0 Variant.Entrance).map
    fun a => a.add_passenger (Person.new "Dave")

/-- A 2×1 cabin, entrance at `(0, 0)`, seat at `(1, 0)`, one passenger whose
target column lies beyond the east edge: the input of claim C9. -/
def c9Aircraft : Option Aircraft := do
  let a ← (Aircraft.new 2 1).set_tile 0 0 Variant.Entrance
  let a ← a.set_tile 1 0 Variant.Seat
  pure (a.add_passenger ((Person.new "Eve").target_seat 2 0))

/-- The C9 input after two ticks: the passenger sits on the boundary seat
`(1, 0)` and still wants to move east. -/
def c9After2 : Option Aircraft :=
  (c9Aircraft.bind update).bind update

/-- A 4×1 cabin, entrance at `(0, 0)` and seats on `(1..3, 0)`, with a
passenger for seat `(3, 0)` boarding ahead of a passenger for seat
`(1, 0)`: the input of the C2 counterexample. -/
def c2Aircraft : Option Aircraft := do
  let a ← (Aircraft.new 4 1).set_tile 0 0 Variant.Entrance
  let a ← a.set_tile 1 0 Variant.Seat
  let a ← a.set_tile 2 0 Variant.Seat
  let a ← a.set_tile 3 0 Variant.Seat
  let a := a.add_passenger ((Person.new "Window").target_seat 1 0)
  pure (a.add_passenger ((Person.new "Rear").target_seat 3 0))

/-- The C2 input after four ticks. -/
def c2After4 : Option Aircraft :=
  (((c2Aircraft.bind update).bind update).bind update).bind update

/-!
Basic lemmas about grid access and modification.
-/

theorem modifyTile_eq_some {a : Aircraft} {x y : Nat} {f : Tile → Tile}
    {a' : Aircraft} (h : modifyTile a x y f = some a') :
    ∃ col t, a.layout.get? x = some col ∧ col.get? y = some t ∧
      a' = { a with layout := a.layout.set x (col.set y (f t)) } := by
  unfold modifyTile at h
  cases hcol : a.layout.get? x with
  | none => rw [hcol] at h; simp at h
  | some col =>
    rw [hcol] at h
    simp only [Option.bind_eq_bind, Option.some_bind] at h
    cases ht : col.get? y with
    | none => rw [ht] at h; simp at h
    | some t =>
      rw [ht] at h
      simp only [Option.bind_eq_bind, Option.some_bind, Option.pure_def,
        Option.some_inj] at h
      exact ⟨col, t, rfl, ht, h.symm⟩

theorem modifyTile_frame {a : Aircraft} {x y : Nat} {f : Tile → Tile}
    {a' : Aircraft} (h : modifyTile a x y f = some a') :
    a'.size = a.size ∧ a'.passengers = a.passengers ∧
      a'.targeted_seats = a.targeted_seats := by
  obtain ⟨col, t, _, _, rfl⟩ := modifyTile_eq_some h
  exact ⟨rfl, rfl, rfl⟩

theorem getTile_modifyTile {a : Aircraft} {u v : Nat} {f : Tile → Tile}
    {a' : Aircraft} (h : modifyTile a u v f = some a') (x y : Nat) :
    getTile a' x y =
      if x = u ∧ y = v then (getTile a u v).map f else getTile a x y := by
  obtain ⟨col, t, hcol, ht, rfl⟩ := modifyTile_eq_some h
  have hulen : u < a.layout.length := List.get?_eq_some.mp hcol |>.1
  have hvlen : v < col.length := List.get?_eq_some.mp ht |>.1
  unfold getTile
  simp only [List.get?_eq_getElem?] at hcol ht ⊢
  by_cases hx : x = u
  · subst hx
    rw [List.getElem?_set_eq_of_lt _ hulen]
    by_cases hy : y = v
    · subst hy
      rw [if_pos ⟨rfl, rfl⟩, hcol]
      simp only [Option.some_bind, ht, Option.map_some']
      rw [List.getElem?_set_eq_of_lt _ hvlen]
    · rw [if_neg (by tauto), hcol]
      simp only [Option.some_bind]
      rw [List.getElem?_set_ne (Ne.symm hy)]
  · rw [if_neg (by tauto)]
    rw [List.getElem?_set_ne (Ne.symm hx)]

theorem slotKeys_of_getTile {a : Aircraft} {x y : Nat} {t : Tile}
    (h : getTile a x y = some t) : slotKeys a x y = tileKeys t := by
  unfold slotKeys
  rw [h]

theorem slotKeys_modifyTile {a : Aircraft} {u v : Nat} {f : Tile → Tile}
    {a' : Aircraft} {t : Tile} (h : modifyTile a u v f = some a')
    (ht : getTile a u v = some t) (x y : Nat) :
    slotKeys a' x y =
      if x = u ∧ y = v then tileKeys (f t) else slotKeys a x y := by
  have hg := getTile_modifyTile h x y
  by_cases hxy : x = u ∧ y = v
  · rw [if_pos hxy] at hg ⊢
    rw [slotKeys_of_getTile (by rw [hg, ht]; rfl)]
  · rw [if_neg hxy] at hg ⊢
    unfold slotKeys
    rw [hg]

theorem mem_of_getLast? {l : List Person} {p : Person}
    (h : l.getLast? = some p) : p ∈ l := by
  cases l with
  | nil => simp at h
  | cons q l =>
    have := List.getLast?_eq_getLast (q :: l) (by simp)
    rw [this] at h
    exact Option.some_inj.mp h ▸ List.getLast_mem (by simp)

/-!
The single-step invariant used for claim C1.  `Jinv a₀ a` relates a mid-scan
state `a` back to the state `a₀` at the start of `update()`: the waiting
queue only shrinks, a tile that is still not `updated` holds exactly
passengers that were there at the start of the tick, and every passenger key
on the grid is either one grid step (or less) away from a start-of-tick
position or came off the boarding queue.
-/

def Jinv (a₀ a : Aircraft) : Prop :=
  (∀ p, p ∈ a.passengers → p ∈ a₀.passengers) ∧
  (∀ x y t k, getTile a x y = some t → k ∈ tileKeys t → t.updated = false →
    k ∈ slotKeys a₀ x y) ∧
  (∀ x y k, k ∈ slotKeys a x y →
    (∃ x₀ y₀, k ∈ slotKeys a₀ x₀ y₀ ∧ adjOrEq x₀ y₀ x y) ∨
    (∃ p, p ∈ a₀.passengers ∧ pkey p = k))

theorem Jinv_refl (a : Aircraft) : Jinv a a := by
  refine ⟨fun p hp => hp, fun x y t k hget hmem _ => ?_, fun x y k hk => ?_⟩
  · rw [slotKeys_of_getTile hget]; exact hmem
  · exact Or.inl ⟨x, y, hk, Or.inl ⟨rfl, rfl⟩⟩

/-- Workhorse for the moving branches of the update scan: the mover `k`
leaves tile `(x, y)` (whose new keys are a subset of the old ones) and enters
the adjacent tile `(cx, cy)` (whose new keys are at most `k` plus the old
ones); both rewritten tiles are marked `updated`. -/
theorem moveJinv {a₀ a a₁ a₂ : Aircraft} {x y cx cy : Nat} {f g : Tile → Tile}
    {k : String × Option (Nat × Nat)} {ts td : Tile}
    (hJ : Jinv a₀ a)
    (horig : k ∈ slotKeys a₀ x y)
    (hadj : adjOrEq x y cx cy)
    (hne : ¬(cx = x ∧ cy = y))
    (hts : getTile a x y = some ts)
    (htd : getTile a cx cy = some td)
    (h1 : modifyTile a x y f = some a₁)
    (h2 : modifyTile a₁ cx cy g = some a₂)
    (hfk : ∀ k', k' ∈ tileKeys (f ts) → k' ∈ tileKeys ts)
    (hfu : (f ts).updated = true)
    (hgk : ∀ k', k' ∈ tileKeys (g td) → k' = k ∨ k' ∈ tileKeys td)
    (hgu : (g td).updated = true) :
    Jinv a₀ a₂ := by
  have hne' : ¬(x = cx ∧ y = cy) := fun ⟨h1', h2'⟩ => hne ⟨h1'.symm, h2'.symm⟩
  have htd1 : getTile a₁ cx cy = some td := by
    rw [getTile_modifyTile h1 cx cy, if_neg hne]; exact htd
  have hget2 : ∀ u v, getTile a₂ u v =
      if u = cx ∧ v = cy then some (g td)
      else if u = x ∧ v = y then some (f ts)
      else getTile a u v := by
    intro u v
    rw [getTile_modifyTile h2 u v]
    by_cases huv : u = cx ∧ v = cy
    · rw [if_pos huv, if_pos huv, htd1]; rfl
    · rw [if_neg huv, if_neg huv, getTile_modifyTile h1 u v]
      by_cases huv' : u = x ∧ v = y
      · rw [if_pos huv', if_pos huv', hts]; rfl
      · rw [if_neg huv', if_neg huv']
  have hpass : a₂.passengers = a.passengers := by
    rw [(modifyTile_frame h2).2.1, (modifyTile_frame h1).2.1]
  refine ⟨?_, ?_, ?_⟩
  · intro p hp; exact hJ.1 p (hpass ▸ hp)
  · intro u v t k' hget hmem hupd
    rw [hget2 u v] at hget
    by_cases huv : u = cx ∧ v = cy
    · rw [if_pos huv] at hget
      cases Option.some_inj.mp hget
      rw [hgu] at hupd; cases hupd
    · rw [if_neg huv] at hget
      by_cases huv' : u = x ∧ v = y
      · rw [if_pos huv'] at hget
        cases Option.some_inj.mp hget
        rw [hfu] at hupd; cases hupd
      · rw [if_neg huv'] at hget
        exact hJ.2.1 u v t k' hget hmem hupd
  · intro u v k' hk'
    unfold slotKeys at hk'
    rw [hget2 u v] at hk'
    by_cases huv : u = cx ∧ v = cy
    · rw [if_pos huv] at hk'
      obtain ⟨rfl, rfl⟩ := huv
      rcases hgk k' hk' with rfl | hmem
      · exact Or.inl ⟨x, y, horig, hadj⟩
      · have : k' ∈ slotKeys a u v := by rw [slotKeys_of_getTile htd]; exact hmem
        exact hJ.2.2 u v k' this
    · rw [if_neg huv] at hk'
      by_cases huv' : u = x ∧ v = y
      · rw [if_pos huv'] at hk'
        obtain ⟨rfl, rfl⟩ := huv'
        have : k' ∈ slotKeys a u v := by
          rw [slotKeys_of_getTile hts]; exact hfk k' hk'
        exact hJ.2.2 u v k' this
      · rw [if_neg huv'] at hk'
        exact hJ.2.2 u v k' (by unfold slotKeys; exact hk')

/-- A single tile rewrite that keeps the tile's keys and `updated` flag (the
`Stow` branches) preserves the invariant. -/
theorem stowJinv {a₀ a a' : Aircraft} {x y : Nat} {f : Tile → Tile} {t : Tile}
    (hJ : Jinv a₀ a)
    (ht : getTile a x y = some t)
    (h : modifyTile a x y f = some a')
    (hk : tileKeys (f t) = tileKeys t)
    (hu : (f t).updated = t.updated) :
    Jinv a₀ a' := by
  have hget : ∀ u v, getTile a' u v =
      if u = x ∧ v = y then some (f t) else getTile a u v := by
    intro u v
    rw [getTile_modifyTile h u v]
    by_cases huv : u = x ∧ v = y
    · rw [if_pos huv, if_pos huv, ht]; rfl
    · rw [if_neg huv, if_neg huv]
  refine ⟨?_, ?_, ?_⟩
  · intro p hp; exact hJ.1 p ((modifyTile_frame h).2.1 ▸ hp)
  · intro u v t' k' hget' hmem hupd
    rw [hget u v] at hget'
    by_cases huv : u = x ∧ v = y
    · rw [if_pos huv] at hget'
      cases Option.some_inj.mp hget'
      obtain ⟨rfl, rfl⟩ := huv
      exact hJ.2.1 u v t k' ht (hk ▸ hmem) (hu ▸ hupd)
    · rw [if_neg huv] at hget'
      exact hJ.2.1 u v t' k' hget' hmem hupd
  · intro u v k' hk'
    unfold slotKeys at hk'
    rw [hget u v] at hk'
    by_cases huv : u = x ∧ v = y
    · rw [if_pos huv] at hk'
      obtain ⟨rfl, rfl⟩ := huv
      exact hJ.2.2 u v k' (by rw [slotKeys_of_getTile ht]; exact hk ▸ hk')
    · rw [if_neg huv] at hk'
      exact hJ.2.2 u v k' (by unfold slotKeys; exact hk')

/-- Admission at an entrance: the passenger comes off the back of the waiting
queue, so its key is accounted for by the queue disjunct of the invariant. -/
theorem admitJinv {a₀ a a' : Aircraft} {x y : Nat} {p : Person} {t : Tile}
    (hJ : Jinv a₀ a)
    (hp : a.passengers.getLast? = some p)
    (ht : getTile a x y = some t)
    (h : modifyTile { a with passengers := a.passengers.dropLast } x y
      (fun d => Tile.occupy d p) = some a') :
    Jinv a₀ a' := by
  have hpmem : p ∈ a₀.passengers := hJ.1 p (mem_of_getLast? hp)
  have ht' : getTile { a with passengers := a.passengers.dropLast } x y = some t := ht
  have hget : ∀ u v, getTile a' u v =
      if u = x ∧ v = y then some (Tile.occupy t p) else getTile a u v := by
    intro u v
    rw [getTile_modifyTile h u v]
    by_cases huv : u = x ∧ v = y
    · rw [if_pos huv, if_pos huv, ht']; rfl
    · rw [if_neg huv, if_neg huv]; rfl
  refine ⟨?_, ?_, ?_⟩
  · intro q hq
    rw [(modifyTile_frame h).2.1] at hq
    exact hJ.1 q (List.dropLast_sublist a.passengers |>.subset hq)
  · intro u v t' k' hget' hmem hupd
    rw [hget u v] at hget'
    by_cases huv : u = x ∧ v = y
    · rw [if_pos huv] at hget'
      cases Option.some_inj.mp hget'
      cases hupd
    · rw [if_neg huv] at hget'
      exact hJ.2.1 u v t' k' hget' hmem hupd
  · intro u v k' hk'
    unfold slotKeys at hk'
    rw [hget u v] at hk'
    by_cases huv : u = x ∧ v = y
    · rw [if_pos huv] at hk'
      obtain ⟨rfl, rfl⟩ := huv
      have : k' = pkey p ∨ k' ∈ tileKeys t := by
        unfold tileKeys at hk' ⊢
        unfold Tile.occupy at hk'
        simp only [Option.map_some', Option.toList_some] at hk'
        rcases List.mem_append.mp hk' with h1 | h1
        · exact Or.inl (List.mem_singleton.mp h1)
        · exact Or.inr (List.mem_append.mpr (Or.inr h1))
      rcases this with rfl | hmem
      · exact Or.inr ⟨p, hpmem, rfl⟩
      · exact hJ.2.2 u v k' (by rw [slotKeys_of_getTile ht]; exact hmem)
    · rw [if_neg huv] at hk'
      exact hJ.2.2 u v k' (by unfold slotKeys; exact hk')

theorem coordsOf_adj {mv : Behaviour} {x y cx cy : Nat}
    (h : coordsOf mv x y = some (cx, cy)) : adjOrEq x y cx cy := by
  unfold adjOrEq
  cases mv <;> unfold coordsOf at h
  case Move_North =>
    by_cases hy : y = 0
    · rw [if_pos hy] at h; cases h
    · rw [if_neg hy] at h
      obtain ⟨rfl, rfl⟩ : x = cx ∧ y - 1 = cy := by
        have := Option.some_inj.mp h; exact ⟨congrArg Prod.fst this, congrArg Prod.snd this⟩
      omega
  case Move_West =>
    by_cases hx : x = 0
    · rw [if_pos hx] at h; cases h
    · rw [if_neg hx] at h
      obtain ⟨rfl, rfl⟩ : x - 1 = cx ∧ y = cy := by
        have := Option.some_inj.mp h; exact ⟨congrArg Prod.fst this, congrArg Prod.snd this⟩
      omega
  all_goals (
    obtain ⟨rfl, rfl⟩ :=
      Prod.mk.injEq .. ▸ Option.some_inj.mp h
    omega)

theorem coordsOf_ne {mv : Behaviour} {x y cx cy : Nat}
    (h1 : mv ≠ Behaviour.Wait) (h2 : mv ≠ Behaviour.Stow)
    (h : coordsOf mv x y = some (cx, cy)) : ¬(cx = x ∧ cy = y) := by
  cases mv <;> unfold coordsOf at h
  case Wait => exact absurd rfl h1
  case Stow => exact absurd rfl h2
  case Move_North =>
    by_cases hy : y = 0
    · rw [if_pos hy] at h; cases h
    · rw [if_neg hy] at h
      have := Option.some_inj.mp h
      have h1' : cx = x := (congrArg Prod.fst this).symm
      have h2' : cy = y - 1 := (congrArg Prod.snd this).symm
      omega
  case Move_West =>
    by_cases hx : x = 0
    · rw [if_pos hx] at h; cases h
    · rw [if_neg hx] at h
      have := Option.some_inj.mp h
      have h1' : cx = x - 1 := (congrArg Prod.fst this).symm
      have h2' : cy = y := (congrArg Prod.snd this).symm
      omega
  case Move_South =>
    have := Option.some_inj.mp h
    have h1' : cx = x := (congrArg Prod.fst this).symm
    have h2' : cy = y + 1 := (congrArg Prod.snd this).symm
    omega
  case Move_East =>
    have := Option.some_inj.mp h
    have h1' : cx = x + 1 := (congrArg Prod.fst this).symm
    have h2' : cy = y := (congrArg Prod.snd this).symm
    omega

theorem occupier_mem_tileKeys {t : Tile} {p : Person}
    (h : t.occupier = some p) : pkey p ∈ tileKeys t := by
  unfold tileKeys
  rw [h]
  simp

theorem passer_mem_tileKeys {t : Tile} {p : Person}
    (h : t.passer = some p) : pkey p ∈ tileKeys t := by
  unfold tileKeys
  rw [h]
  simp

theorem tileKeys_free_subset (t : Tile) :
    ∀ k', k' ∈ tileKeys (Tile.free t).2 → k' ∈ tileKeys t := by
  intro k' h
  unfold tileKeys Tile.free at h
  simp only [Option.map_none', Option.toList_none, List.nil_append] at h
  exact List.mem_append.mpr (Or.inr h)

theorem tileKeys_passClear_subset (t : Tile) :
    ∀ k', k' ∈ tileKeys { t with
      passer := Option.none,
      pass_count := false,
      updated := true } → k' ∈ tileKeys t := by
  intro k' h
  unfold tileKeys at h
  simp only [Option.map_none', Option.toList_none, List.append_nil] at h
  exact List.mem_append.mpr (Or.inl h)

theorem tileKeys_occupy (t : Tile) (p : Person) :
    ∀ k', k' ∈ tileKeys (Tile.occupy t p) → k' = pkey p ∨ k' ∈ tileKeys t := by
  intro k' h
  unfold tileKeys Tile.occupy at h
  simp only [Option.map_some', Option.toList_some] at h
  rcases List.mem_append.mp h with h1 | h1
  · exact Or.inl (List.mem_singleton.mp h1)
  · exact Or.inr (List.mem_append.mpr (Or.inr h1))

theorem tileKeys_pass_in (t : Tile) (p : Person) :
    ∀ k', k' ∈ tileKeys (Tile.pass_in t p) → k' = pkey p ∨ k' ∈ tileKeys t := by
  intro k' h
  unfold tileKeys Tile.pass_in at h
  simp only [Option.map_some', Option.toList_some] at h
  rcases List.mem_append.mp h with h1 | h1
  · exact Or.inr (List.mem_append.mpr (Or.inl h1))
  · exact Or.inl (List.mem_singleton.mp h1)

theorem phaseA_Jinv {a₀ a a₁ : Aircraft} {x y : Nat} {t : Tile}
    (hJ : Jinv a₀ a) (ht : getTile a x y = some t) (hupd : t.updated = false)
    (h : phaseA a x y = some a₁) :
    Jinv a₀ a₁ ∧ ∃ t₁, getTile a₁ x y = some t₁ ∧ t₁.passer = t.passer := by
  unfold phaseA at h
  rw [ht] at h
  simp only [Option.bind_eq_bind, Option.some_bind] at h
  cases hocc : t.occupier with
  | none =>
    rw [hocc] at h
    simp only [Option.pure_def, Option.some_inj] at h
    subst h
    exact ⟨hJ, t, ht, rfl⟩
  | some p =>
    rw [hocc] at h
    simp only [Option.bind_eq_bind] at h
    cases hseat : p.get_seat with
    | none => rw [hseat] at h; simp at h
    | some target =>
      rw [hseat] at h
      simp only [Option.some_bind] at h
      cases hdm : determine_move a x y target.1 target.2 p.has_baggage with
      | none => rw [hdm] at h; simp at h
      | some bm =>
        rw [hdm] at h
        simp only [Option.some_bind] at h
        by_cases hb : bm.1 ≠ Behaviour.Wait ∧ bm.1 ≠ Behaviour.Stow
        · rw [if_pos hb] at h
          cases hc : coordsOf bm.1 x y with
          | none => rw [hc] at h; simp at h
          | some c =>
            rw [hc] at h
            simp only [Option.some_bind] at h
            cases htd : getTile a c.1 c.2 with
            | none => rw [htd] at h; simp at h
            | some td =>
              rw [htd] at h
              simp only [Option.some_bind] at h
              obtain ⟨cx, cy⟩ := c
              have hadj := coordsOf_adj hc
              have hne := coordsOf_ne hb.1 hb.2 hc
              have hne2 : ¬(x = cx ∧ y = cy) :=
                fun hh => hne ⟨hh.1.symm, hh.2.symm⟩
              have horig : pkey p ∈ slotKeys a₀ x y :=
                hJ.2.1 x y t (pkey p) ht (occupier_mem_tileKeys hocc) hupd
              by_cases hocc2 : td.is_occupied = true
              · rw [if_neg (not_not_intro hocc2)] at h
                by_cases hall : td.is_allowing = true
                · rw [if_neg (not_not_intro hall)] at h
                  simp only [Option.pure_def, Option.some_inj] at h
                  subst h
                  exact ⟨hJ, t, ht, rfl⟩
                · rw [if_pos hall] at h
                  cases hm1 : modifyTile a x y (fun s => (Tile.free s).2) with
                  | none => rw [hm1] at h; simp at h
                  | some am =>
                    rw [hm1] at h
                    simp only [Option.some_bind] at h
                    refine ⟨moveJinv hJ horig hadj hne ht htd hm1 h
                      (tileKeys_free_subset t) rfl (tileKeys_pass_in td p) rfl, ?_⟩
                    have hg2 := getTile_modifyTile h x y
                    rw [if_neg hne2] at hg2
                    have hg1 := getTile_modifyTile hm1 x y
                    rw [if_pos ⟨rfl, rfl⟩, ht] at hg1
                    exact ⟨(Tile.free t).2, by rw [hg2, hg1]; rfl, rfl⟩
              · rw [if_pos hocc2] at h
                cases hm1 : modifyTile a x y (fun s => (Tile.free s).2) with
                | none => rw [hm1] at h; simp at h
                | some am =>
                  rw [hm1] at h
                  simp only [Option.some_bind] at h
                  refine ⟨moveJinv hJ horig hadj hne ht htd hm1 h
                    (tileKeys_free_subset t) rfl (tileKeys_occupy td p) rfl, ?_⟩
                  have hg2 := getTile_modifyTile h x y
                  rw [if_neg hne2] at hg2
                  have hg1 := getTile_modifyTile hm1 x y
                  rw [if_pos ⟨rfl, rfl⟩, ht] at hg1
                  exact ⟨(Tile.free t).2, by rw [hg2, hg1]; rfl, rfl⟩
        · rw [if_neg hb] at h
          by_cases hs : bm.1 = Behaviour.Stow
          · rw [if_pos hs] at h
            have hkeys : tileKeys { t with occupier := some p.remove_baggage }
                = tileKeys t := by
              unfold tileKeys
              rw [hocc]
              rfl
            refine ⟨stowJinv hJ ht h hkeys rfl, ?_⟩
            have hg := getTile_modifyTile h x y
            rw [if_pos ⟨rfl, rfl⟩, ht] at hg
            exact ⟨{ t with occupier := some p.remove_baggage }, by rw [hg]; rfl, rfl⟩
          · rw [if_neg hs] at h
            simp only [Option.pure_def, Option.some_inj] at h
            subst h
            exact ⟨hJ, t, ht, rfl⟩

theorem phaseB_Jinv {a₀ a a₂ : Aircraft} {x y : Nat}
    (hJ : Jinv a₀ a)
    (horig : ∀ q t₁, getTile a x y = some t₁ → t₁.passer = some q →
      pkey q ∈ slotKeys a₀ x y)
    (h : phaseB a x y = some a₂) : Jinv a₀ a₂ := by
  unfold phaseB at h
  cases ht : getTile a x y with
  | none => rw [ht] at h; simp at h
  | some t =>
    rw [ht] at h
    simp only [Option.bind_eq_bind, Option.some_bind] at h
    by_cases hcond : t.is_allowing = true ∧ t.pass_count = true
    · rw [if_pos hcond] at h
      cases hpass : t.passer with
      | none => rw [hpass] at h; simp at h
      | some q =>
        rw [hpass] at h
        simp only [Option.some_bind] at h
        cases hseat : q.get_seat with
        | none => rw [hseat] at h; simp at h
        | some target =>
          rw [hseat] at h
          simp only [Option.some_bind] at h
          cases hdm : determine_move a x y target.1 target.2 q.has_baggage with
          | none => rw [hdm] at h; simp at h
          | some bm =>
            rw [hdm] at h
            simp only [Option.some_bind] at h
            by_cases hb : bm.1 ≠ Behaviour.Wait ∧ bm.1 ≠ Behaviour.Stow
            · rw [if_pos hb] at h
              cases hc : coordsOf bm.1 x y with
              | none => rw [hc] at h; simp at h
              | some c =>
                rw [hc] at h
                simp only [Option.some_bind] at h
                cases htd : getTile a c.1 c.2 with
                | none => rw [htd] at h; simp at h
                | some td =>
                  rw [htd] at h
                  simp only [Option.some_bind] at h
                  obtain ⟨cx, cy⟩ := c
                  have hadj := coordsOf_adj hc
                  have hne := coordsOf_ne hb.1 hb.2 hc
                  have horig' : pkey q ∈ slotKeys a₀ x y := horig q t ht hpass
                  by_cases hocc2 : td.is_occupied = true
                  · rw [if_neg (not_not_intro hocc2)] at h
                    by_cases hall : td.is_allowing = true
                    · rw [if_neg (not_not_intro hall)] at h
                      simp only [Option.pure_def, Option.some_inj] at h
                      subst h
                      exact hJ
                    · rw [if_pos hall] at h
                      cases hm1 : modifyTile a x y (fun s => { s with
                          passer := none, pass_count := false,
                          updated := true }) with
                      | none => rw [hm1] at h; simp at h
                      | some am =>
                        rw [hm1] at h
                        simp only [Option.some_bind] at h
                        exact moveJinv hJ horig' hadj hne ht htd hm1 h
                          (tileKeys_passClear_subset t) rfl
                          (tileKeys_pass_in td q) rfl
                  · rw [if_pos hocc2] at h
                    cases hm1 : modifyTile a x y (fun s => { s with
                        passer := none, pass_count := false,
                        updated := true }) with
                    | none => rw [hm1] at h; simp at h
                    | some am =>
                      rw [hm1] at h
                      simp only [Option.some_bind] at h
                      exact moveJinv hJ horig' hadj hne ht htd hm1 h
                        (tileKeys_passClear_subset t) rfl
                        (tileKeys_occupy td q) rfl
            · rw [if_neg hb] at h
              by_cases hs : bm.1 = Behaviour.Stow
              · rw [if_pos hs] at h
                have hkeys : tileKeys { t with passer := some q.remove_baggage }
                    = tileKeys t := by
                  unfold tileKeys
                  rw [hpass]
                  rfl
                exact stowJinv hJ ht h hkeys rfl
              · rw [if_neg hs] at h
                simp only [Option.pure_def, Option.some_inj] at h
                subst h
                exact hJ
    · rw [if_neg hcond] at h
      simp only [Option.pure_def, Option.some_inj] at h
      subst h
      exact hJ

theorem phaseC_Jinv {a₀ a a' : Aircraft} {x y : Nat}
    (hJ : Jinv a₀ a) (h : phaseC a x y = some a') : Jinv a₀ a' := by
  unfold phaseC at h
  cases ht : getTile a x y with
  | none => rw [ht] at h; simp at h
  | some t =>
    rw [ht] at h
    simp only [Option.bind_eq_bind, Option.some_bind] at h
    by_cases hcond : t.get_variant = Variant.Entrance ∧
        a.passengers.length > 0 ∧ ¬ t.is_occupied = true
    · rw [if_pos hcond] at h
      cases hp : a.passengers.getLast? with
      | none => rw [hp] at h; simp at h
      | some p =>
        rw [hp] at h
        simp only [Option.some_bind] at h
        exact admitJinv hJ hp ht h
    · rw [if_neg hcond] at h
      simp only [Option.pure_def, Option.some_inj] at h
      subst h
      exact hJ

theorem processCell_Jinv {a₀ a a' : Aircraft} {x y : Nat}
    (hJ : Jinv a₀ a) (h : processCell a x y = some a') : Jinv a₀ a' := by
  unfold processCell at h
  cases ht : getTile a x y with
  | none => rw [ht] at h; simp at h
  | some t =>
    rw [ht] at h
    simp only [Option.bind_eq_bind, Option.some_bind] at h
    by_cases hcond : ¬ t.has_updated = true ∧ (t.get_variant = Variant.Entrance ∨
        t.get_variant = Variant.Aisle ∨ t.get_variant = Variant.Seat)
    · rw [if_pos hcond] at h
      have hupd : t.updated = false := by
        have := hcond.1
        unfold Tile.has_updated at this
        exact Bool.not_eq_true _ ▸ this
      cases hA : phaseA a x y with
      | none => rw [hA] at h; simp at h
      | some a₁ =>
        rw [hA] at h
        simp only [Option.some_bind] at h
        obtain ⟨hJ1, t₁, hgt1, hps⟩ := phaseA_Jinv hJ ht hupd hA
        cases hB : phaseB a₁ x y with
        | none => rw [hB] at h; simp at h
        | some a₂ =>
          rw [hB] at h
          simp only [Option.some_bind] at h
          have horig : ∀ q t', getTile a₁ x y = some t' → t'.passer = some q →
              pkey q ∈ slotKeys a₀ x y := by
            intro q t' hgt' hq
            have ht'eq : t' = t₁ := by
              rw [hgt1] at hgt'
              exact Option.some_inj.mp hgt'.symm
            subst ht'eq
            rw [hps] at hq
            exact hJ.2.1 x y t (pkey q) ht (passer_mem_tileKeys hq) hupd
          exact phaseC_Jinv (phaseB_Jinv hJ1 horig hB) h
    · rw [if_neg hcond] at h
      simp only [Option.pure_def, Option.some_inj] at h
      subst h
      exact hJ

theorem foldlM_processCell_Jinv {a₀ : Aircraft} :
    ∀ (l : List (Nat × Nat)) {a a' : Aircraft}, Jinv a₀ a →
      l.foldlM (fun s c => processCell s c.1 c.2) a = some a' → Jinv a₀ a' := by
  intro l
  induction l with
  | nil =>
    intro a a' hJ h
    simp only [List.foldlM_nil, Option.pure_def, Option.some_inj] at h
    subst h
    exact hJ
  | cons c l ih =>
    intro a a' hJ h
    rw [List.foldlM_cons] at h
    cases h1 : processCell a c.1 c.2 with
    | none => rw [h1] at h; simp at h
    | some a₁ =>
      rw [h1] at h
      simp only [Option.bind_eq_bind, Option.some_bind] at h
      exact ih (processCell_Jinv hJ h1) h

theorem foldlM_setUpdated_keys :
    ∀ (l : List (Nat × Nat)) {a a' : Aircraft},
      l.foldlM (fun s c => modifyTile s c.1 c.2 fun t => t.set_updated false) a
        = some a' →
      (∀ u v, slotKeys a' u v = slotKeys a u v) ∧
        a'.passengers = a.passengers := by
  intro l
  induction l with
  | nil =>
    intro a a' h
    simp only [List.foldlM_nil, Option.pure_def, Option.some_inj] at h
    subst h
    exact ⟨fun u v => rfl, rfl⟩
  | cons c l ih =>
    intro a a' h
    rw [List.foldlM_cons] at h
    cases h1 : modifyTile a c.1 c.2 (fun t => t.set_updated false) with
    | none => rw [h1] at h; simp at h
    | some a₁ =>
      rw [h1] at h
      simp only [Option.bind_eq_bind, Option.some_bind] at h
      obtain ⟨hkeys, hpass⟩ := ih h
      refine ⟨fun u v => ?_, hpass.trans (modifyTile_frame h1).2.1⟩
      rw [hkeys u v]
      obtain ⟨col, t, hcol, htl, _⟩ := modifyTile_eq_some h1
      have hgt : getTile a c.1 c.2 = some t := by
        unfold getTile
        rw [hcol]
        simp only [Option.some_bind]
        exact htl
      rw [slotKeys_modifyTile h1 hgt u v]
      by_cases huv : u = c.1 ∧ v = c.2
      · rw [if_pos huv]
        obtain ⟨rfl, rfl⟩ := huv
        rw [slotKeys_of_getTile hgt]
        rfl
      · rw [if_neg huv]

/-- Claim C1: a single `update()` moves each passenger at most one grid step:
every passenger key present on the grid after a successful `update()` is
either at distance at most one (north, south, east, west or unchanged) from a
position it had before the call, or was admitted from the boarding queue
during the call; in particular no passenger that moved into a later-scanned
cell is moved again within the same tick. -/
theorem C1_update_moves_at_most_one_step {a a' : Aircraft}
    (h : update a = some a') :
    ∀ x y k, k ∈ slotKeys a' x y →
      (∃ x₀ y₀, k ∈ slotKeys a x₀ y₀ ∧ adjOrEq x₀ y₀ x y) ∨
      (∃ p, p ∈ a.passengers ∧ pkey p = k) := by
  unfold update at h
  cases hs : scanAll a with
  | none => rw [hs] at h; simp at h
  | some a₁ =>
    rw [hs] at h
    simp only [Option.bind_eq_bind, Option.some_bind] at h
    have hJ : Jinv a a₁ := by
      unfold scanAll at hs
      exact foldlM_processCell_Jinv _ (Jinv_refl a) hs
    intro x y k hk
    have hkeys := (foldlM_setUpdated_keys _ h).1 x y
    rw [hkeys] at hk
    exact hJ.2.2 x y k hk

/-- Witness for C1: on the concrete 1×1 cabin with a seated passenger,
`update()` succeeds and the passenger's key is still within one grid step of
a previous position. -/
theorem C1_update_moves_at_most_one_step_witness :
    (∃ x₀ y₀, pkey davePerson ∈ slotKeys seatedAir x₀ y₀ ∧ adjOrEq x₀ y₀ 0 0) ∨
    (∃ p, p ∈ seatedAir.passengers ∧ pkey p = pkey davePerson) :=
  @C1_update_moves_at_most_one_step seatedAir seatedAir
    (by decide) 0 0 (pkey davePerson) (by decide)

/-- Counterexample for C2: after four ticks from a reachable configuration,
tile `(1, 0)` is a Seat holding a passer but no occupier, refuting
`passer.is_some() ⇒ occupier.is_some()` for reachable states (the seated
passenger bound for `(3, 0)` moved on east, leaving behind the passer bound
for `(1, 0)`). -/
theorem C2_counterexample_passer_without_occupier :
    (c2After4.bind fun a => getTile a 1 0).map
      (fun t => (t.get_variant, t.is_occupied, t.is_allowing)) =
      some (Variant.Seat, false, true) := by
  decide

/-- Claim C3 (code bug evidence): with a targetless passenger queued at a
1×1 entrance cabin, the first `update()` admits the passenger and returns
normally, and the second `update()` panics (the engine unwraps
`get_seat()` on `None`), contradicting the spec's requirement that a
targetless passenger must not crash the engine. -/
theorem C3_targetless_passenger_crashes :
    (c3Aircraft.bind update).isSome = true ∧
      (c3Aircraft.bind update).bind update = none := by
  decide

/-- Claim C9: a reachable state in which the policy's chosen move leaves the
grid at the east edge and executing it panics.  After two ticks the
passenger occupies the boundary seat `(1, 0)` of the 2×1 cabin, the policy
chooses `Move_East` (destination `(2, 0)`, off the grid), and the third
`update()` call panics on the out-of-bounds dispatch. -/
theorem C9_chosen_move_leaves_grid_and_panics :
    (c9After2.map fun a => a.get_size) = some (2, 1) ∧
    (c9After2.bind fun a => (getTile a 1 0).map Tile.is_occupied) = some true ∧
    (c9After2.bind fun a => determine_move a 1 0 2 0 false) =
      some (Behaviour.Move_East, 0) ∧
    c9After2.bind update = none := by
  decide

/-- Counterexample for C5: the initial best of the candidate loop is
`(Wait, 1000.0)`, not `(Wait, +∞)`.  At cell `(0, 0)` of an all-aisle 2×1
cabin with target `(1001, 0)`, the policy returns `Wait` although the East
candidate is accepted, row-legal, and strictly improves the Manhattan
distance (1000 < 1001): its distance is not below the 1000 cut-off. -/
theorem C5_counterexample_init_not_infinite :
    determine_move (Aircraft.new 2 1) 0 0 1001 0 false =
      some (Behaviour.Wait, 1000) ∧
    accB (Aircraft.new 2 1) 0 0 Behaviour.Move_East = true ∧
    rowOK Behaviour.Move_East 0 (destA Behaviour.Move_East 0 0).2 ∧
    manhattan 1001 0 (destA Behaviour.Move_East 0 0).1
        (destA Behaviour.Move_East 0 0).2 <
      manhattan 1001 0 0 0 := by
  decide

/-!
Analysis of the Aisle/Entrance candidate loop of `determine_move`.
-/

theorem accB_iff {a : Aircraft} {i j : Nat} {mv : Behaviour} :
    accB a i j mv = true ↔
      ∃ t, getTile a (destA mv i j).1 (destA mv i j).2 = some t ∧
        (¬ t.is_occupied = true ∨ destA mv i j = (i, j) ∨
          (t.is_occupied = true ∧ ¬ t.is_allowing = true ∧
            t.get_variant = Variant.Seat)) := by
  unfold accB
  cases hg : getTile a (destA mv i j).1 (destA mv i j).2 with
  | none =>
    simp
  | some t =>
    constructor
    · intro hb
      simp only [Bool.or_eq_true, Bool.and_eq_true, Bool.not_eq_true',
        decide_eq_true_eq] at hb
      refine ⟨t, rfl, ?_⟩
      rcases hb with (hb | hb) | hb
      · exact Or.inl (by simp [hb])
      · exact Or.inr (Or.inl hb)
      · exact Or.inr (Or.inr ⟨hb.1.1, by simp [hb.1.2], hb.2⟩)
    · rintro ⟨t', ht', hcond⟩
      obtain rfl : t' = t := (Option.some_inj.mp ht').symm
      simp only [Bool.or_eq_true, Bool.and_eq_true, Bool.not_eq_true',
        decide_eq_true_eq]
      rcases hcond with hc | hc | hc
      · exact Or.inl (Or.inl (by simpa using hc))
      · exact Or.inl (Or.inr hc)
      · exact Or.inr ⟨⟨hc.1, by simpa using hc.2.1⟩, hc.2.2⟩

theorem aisleStep_cases {a : Aircraft} {i j tx ty : Nat}
    {best best' : Behaviour × Nat} {mv : Behaviour}
    (h : aisleStep a i j tx ty best mv = some best') :
    best' = best ∨
      (best' = (mv, manhattan tx ty (destA mv i j).1 (destA mv i j).2) ∧
        rowOK mv ty (destA mv i j).2 ∧ accB a i j mv = true ∧
        manhattan tx ty (destA mv i j).1 (destA mv i j).2 < best.2) := by
  unfold aisleStep at h
  by_cases h1 : manhattan tx ty (destA mv i j).1 (destA mv i j).2 < best.2
  · rw [if_pos h1] at h
    by_cases h2 : (mv = Behaviour.Move_East ∧ (destA mv i j).2 ≠ ty) ∨
        (mv = Behaviour.Move_West ∧ (destA mv i j).2 ≠ ty)
    · rw [if_pos h2] at h
      simp only [Option.pure_def, Option.some_inj] at h
      exact Or.inl h.symm
    · rw [if_neg h2] at h
      have hrow : rowOK mv ty (destA mv i j).2 := by
        unfold rowOK
        intro hmv
        by_contra hne
        rcases hmv with rfl | rfl
        · exact h2 (Or.inl ⟨rfl, hne⟩)
        · exact h2 (Or.inr ⟨rfl, hne⟩)
      cases hg : getTile a (destA mv i j).1 (destA mv i j).2 with
      | none => rw [hg] at h; simp at h
      | some t =>
        rw [hg] at h
        simp only [Option.bind_eq_bind, Option.some_bind] at h
        by_cases h3 : ¬ t.is_occupied = true ∨ destA mv i j = (i, j)
        · rw [if_pos h3] at h
          simp only [Option.pure_def, Option.some_inj] at h
          refine Or.inr ⟨h.symm, hrow, ?_, h1⟩
          exact accB_iff.mpr ⟨t, hg, by tauto⟩
        · rw [if_neg h3] at h
          by_cases h4 : ¬ t.is_allowing = true ∧ t.get_variant = Variant.Seat
          · rw [if_pos h4] at h
            simp only [Option.pure_def, Option.some_inj] at h
            refine Or.inr ⟨h.symm, hrow, ?_, h1⟩
            push_neg at h3
            exact accB_iff.mpr ⟨t, hg, Or.inr (Or.inr ⟨h3.1, h4.1, h4.2⟩)⟩
          · rw [if_neg h4] at h
            simp only [Option.pure_def, Option.some_inj] at h
            exact Or.inl h.symm
  · rw [if_neg h1] at h
    simp only [Option.pure_def, Option.some_inj] at h
    exact Or.inl h.symm

theorem aisleStep_wait {a : Aircraft} {i j tx ty : Nat} {t : Tile}
    (ht : getTile a i j = some t) :
    aisleStep a i j tx ty (Behaviour.Wait, 1000) Behaviour.Wait =
      some (Behaviour.Wait, min (manhattan tx ty i j) 1000) := by
  unfold aisleStep
  by_cases h1 : manhattan tx ty i j < 1000
  · rw [if_pos (show manhattan tx ty (destA Behaviour.Wait i j).1
        (destA Behaviour.Wait i j).2 < (Behaviour.Wait, 1000).2 from h1)]
    rw [if_neg (by simp)]
    have hg : getTile a (destA Behaviour.Wait i j).1 (destA Behaviour.Wait i j).2
        = some t := ht
    rw [hg]
    simp only [Option.bind_eq_bind, Option.some_bind]
    have hcond : ¬ t.is_occupied = true ∨ destA Behaviour.Wait i j = (i, j) :=
      Or.inr rfl
    rw [if_pos hcond]
    simp only [Option.pure_def, Option.some_inj, Prod.mk.injEq, true_and]
    rw [Nat.min_eq_left (Nat.le_of_lt h1)]
    rfl
  · rw [if_neg (show ¬ manhattan tx ty (destA Behaviour.Wait i j).1
        (destA Behaviour.Wait i j).2 < (Behaviour.Wait, 1000).2 from h1)]
    simp [Nat.min_eq_right (Nat.le_of_not_lt h1)]

theorem aisleStep_wait_stable {a : Aircraft} {i j tx ty : Nat}
    {best best' : Behaviour × Nat} {mv : Behaviour}
    (hdir : mv ≠ Behaviour.Wait)
    (h : aisleStep a i j tx ty best mv = some best')
    (hw : best'.1 = Behaviour.Wait) :
    best' = best ∧
      ¬(rowOK mv ty (destA mv i j).2 ∧ accB a i j mv = true ∧
        manhattan tx ty (destA mv i j).1 (destA mv i j).2 < best.2) := by
  rcases aisleStep_cases h with heq | ⟨heq, _, _, _⟩
  · subst heq
    refine ⟨rfl, ?_⟩
    rintro ⟨hrow, hacc, hlt⟩
    -- rerun the step: with these conditions it must replace the best
    unfold aisleStep at h
    rw [if_pos hlt] at h
    have h2 : ¬((mv = Behaviour.Move_East ∧ (destA mv i j).2 ≠ ty) ∨
        (mv = Behaviour.Move_West ∧ (destA mv i j).2 ≠ ty)) := by
      rintro (⟨rfl, hne⟩ | ⟨rfl, hne⟩)
      · exact hne (hrow (Or.inl rfl))
      · exact hne (hrow (Or.inr rfl))
    rw [if_neg h2] at h
    obtain ⟨t, hg, hcond⟩ := accB_iff.mp hacc
    rw [hg] at h
    simp only [Option.bind_eq_bind, Option.some_bind] at h
    by_cases h3 : ¬ t.is_occupied = true ∨ destA mv i j = (i, j)
    · rw [if_pos h3] at h
      simp only [Option.pure_def, Option.some_inj] at h
      rw [← h] at hw
      exact hdir hw
    · rw [if_neg h3] at h
      have h4 : ¬ t.is_allowing = true ∧ t.get_variant = Variant.Seat := by
        push_neg at h3
        rcases hcond with hc | hc | hc
        · exact absurd hc (not_not_intro h3.1)
        · exact absurd hc h3.2
        · exact ⟨hc.2.1, hc.2.2⟩
      rw [if_pos h4] at h
      simp only [Option.pure_def, Option.some_inj] at h
      rw [← h] at hw
      exact hdir hw
  · rw [heq] at hw
    exact absurd hw hdir

theorem determine_move_aisle_chain {a : Aircraft} {i j tx ty : Nat}
    {bag : Bool} {t : Tile} {r : Behaviour × Nat}
    (ht : getTile a i j = some t)
    (hv : t.get_variant = Variant.Aisle ∨ t.get_variant = Variant.Entrance)
    (hns : ¬(ty = j ∧ bag = true))
    (h : determine_move a i j tx ty bag = some r) :
    ∃ b₁ b₂ b₃ b₄,
      aisleStep a i j tx ty (Behaviour.Wait, 1000) Behaviour.Wait = some b₁ ∧
      aisleStep a i j tx ty b₁ Behaviour.Move_North = some b₂ ∧
      aisleStep a i j tx ty b₂ Behaviour.Move_South = some b₃ ∧
      aisleStep a i j tx ty b₃ Behaviour.Move_East = some b₄ ∧
      aisleStep a i j tx ty b₄ Behaviour.Move_West = some r := by
  unfold determine_move at h
  rw [ht] at h
  simp only [Option.bind_eq_bind, Option.some_bind] at h
  rw [if_pos hv, if_neg hns] at h
  cases h1 : aisleStep a i j tx ty (Behaviour.Wait, 1000) Behaviour.Wait with
  | none => rw [h1] at h; simp at h
  | some b₁ =>
    rw [h1] at h
    simp only [Option.some_bind] at h
    cases h2 : aisleStep a i j tx ty b₁ Behaviour.Move_North with
    | none => rw [h2] at h; simp at h
    | some b₂ =>
      rw [h2] at h
      simp only [Option.some_bind] at h
      cases h3 : aisleStep a i j tx ty b₂ Behaviour.Move_South with
      | none => rw [h3] at h; simp at h
      | some b₃ =>
        rw [h3] at h
        simp only [Option.some_bind] at h
        cases h4 : aisleStep a i j tx ty b₃ Behaviour.Move_East with
        | none => rw [h4] at h; simp at h
        | some b₄ =>
          rw [h4] at h
          simp only [Option.some_bind] at h
          cases h5 : aisleStep a i j tx ty b₄ Behaviour.Move_West with
          | none => rw [h5] at h; simp at h
          | some b₅ =>
            rw [h5] at h
            simp only [Option.bind_eq_bind, Option.some_bind, Option.pure_def,
              Option.some_inj] at h
            exact ⟨b₁, b₂, b₃, b₄, rfl, h2, h3, h4, by rw [h] at h5; exact h5⟩

/-- The fold invariant of the candidate loop: the current best is either
still the Wait default or a directional candidate that passed the row
restriction and the acceptance check. -/
def bestOK (a : Aircraft) (i j ty : Nat) (best : Behaviour × Nat) : Prop :=
  best.1 = Behaviour.Wait ∨
    ((best.1 = Behaviour.Move_North ∨ best.1 = Behaviour.Move_South ∨
      best.1 = Behaviour.Move_East ∨ best.1 = Behaviour.Move_West) ∧
      rowOK best.1 ty (destA best.1 i j).2 ∧ accB a i j best.1 = true)

theorem bestOK_step {a : Aircraft} {i j tx ty : Nat}
    {best best' : Behaviour × Nat} {mv : Behaviour}
    (hmv : mv = Behaviour.Move_North ∨ mv = Behaviour.Move_South ∨
      mv = Behaviour.Move_East ∨ mv = Behaviour.Move_West)
    (hP : bestOK a i j ty best)
    (h : aisleStep a i j tx ty best mv = some best') :
    bestOK a i j ty best' := by
  rcases aisleStep_cases h with rfl | ⟨rfl, hrow, hacc, _⟩
  · exact hP
  · exact Or.inr ⟨hmv, hrow, hacc⟩

theorem determine_move_aisle_props {a : Aircraft} {i j tx ty : Nat}
    {bag : Bool} {t : Tile} {b : Behaviour} {d : Nat}
    (ht : getTile a i j = some t)
    (hv : t.get_variant = Variant.Aisle ∨ t.get_variant = Variant.Entrance)
    (h : determine_move a i j tx ty bag = some (b, d)) :
    (b = Behaviour.Stow ↔ (ty = j ∧ bag = true)) ∧
    (b ≠ Behaviour.Stow → bestOK a i j ty (b, d)) := by
  by_cases hns : ty = j ∧ bag = true
  · unfold determine_move at h
    rw [ht] at h
    simp only [Option.bind_eq_bind, Option.some_bind] at h
    rw [if_pos hv, if_pos hns] at h
    simp only [Option.pure_def, Option.some_inj, Prod.mk.injEq] at h
    exact ⟨⟨fun _ => hns, fun _ => h.1.symm⟩,
      fun hb => absurd h.1.symm hb⟩
  · obtain ⟨b₁, b₂, b₃, b₄, h1, h2, h3, h4, h5⟩ :=
      determine_move_aisle_chain ht hv hns h
    have hP1 : bestOK a i j ty b₁ := by
      rcases aisleStep_cases h1 with rfl | ⟨rfl, _, _, _⟩
      · exact Or.inl rfl
      · exact Or.inl rfl
    have hP := bestOK_step (by tauto) (bestOK_step (by tauto)
      (bestOK_step (by tauto) (bestOK_step (by tauto) hP1 h2) h3) h4) h5
    have hbstow : b ≠ Behaviour.Stow := by
      rcases hP with hw | ⟨hdir, _, _⟩
      · simp only at hw; rw [hw]; intro hc; cases hc
      · simp only at hdir
        rintro rfl
        rcases hdir with h' | h' | h' | h' <;> cases h'
    exact ⟨⟨fun hb => absurd hb hbstow, fun hc => absurd hc hns⟩,
      fun _ => hP⟩

/-- Claim C4: on an in-bounds Aisle or Entrance cell, the policy returns
`Stow` exactly when `ty = j` and the baggage flag holds; otherwise the result
comes from the five candidates, an East/West result's destination row equals
`ty`, and any directional result's destination was accepted: not occupied, or
the current cell, or an occupied non-allowing Seat. -/
theorem C4_aisle_entrance_policy {a : Aircraft} {i j tx ty : Nat} {bag : Bool}
    {t : Tile} {b : Behaviour} {d : Nat}
    (ht : getTile a i j = some t)
    (hv : t.get_variant = Variant.Aisle ∨ t.get_variant = Variant.Entrance)
    (h : determine_move a i j tx ty bag = some (b, d)) :
    (b = Behaviour.Stow ↔ (ty = j ∧ bag = true)) ∧
    ((b = Behaviour.Move_East ∨ b = Behaviour.Move_West) →
      (destA b i j).2 = ty) ∧
    (b ≠ Behaviour.Wait → b ≠ Behaviour.Stow → accB a i j b = true) := by
  obtain ⟨hiff, hrest⟩ := determine_move_aisle_props ht hv h
  refine ⟨hiff, ?_, ?_⟩
  · intro hew
    have hb : b ≠ Behaviour.Stow := by
      rcases hew with rfl | rfl <;> (intro hc; cases hc)
    rcases hrest hb with hw | ⟨_, hrow, _⟩
    · exfalso
      rcases hew with rfl | rfl <;> cases hw
    · exact hrow hew
  · intro hbw hbs
    rcases hrest hbs with hw | ⟨_, _, hacc⟩
    · exact absurd hw hbw
    · exact hacc

/-- Witness for C4 at a concrete input: on the fresh 2×1 cabin the policy at
`(0, 0)` with target `(1, 0)` returns `Move_East`, whose destination row is
the target row and whose destination is accepted. -/
theorem C4_aisle_entrance_policy_witness :
    (Behaviour.Move_East = Behaviour.Stow ↔ ((0 : Nat) = 0 ∧ false = true)) ∧
    ((Behaviour.Move_East = Behaviour.Move_East ∨
        Behaviour.Move_East = Behaviour.Move_West) →
      (destA Behaviour.Move_East 0 0).2 = 0) ∧
    (Behaviour.Move_East ≠ Behaviour.Wait → Behaviour.Move_East ≠ Behaviour.Stow →
      accB (Aircraft.new 2 1) 0 0 Behaviour.Move_East = true) :=
  @C4_aisle_entrance_policy (Aircraft.new 2 1) 0 0 1 0 false Tile.aisle
    Behaviour.Move_East 0 (by decide) (by decide) (by decide)

/-- Claim C5 (amended): a candidate replaces the current best only if its
Manhattan distance is strictly smaller, and the initial best is
`(Wait, 1000.0)` — not `(Wait, +∞)` — so outside the Stow case the policy on
an Aisle/Entrance cell returns `Wait` exactly as long as no accepted,
row-legal four-neighbour candidate has distance strictly below
`min(Wait's own distance, 1000)`. -/
theorem C5_amended_wait_only_without_improver :
    (∀ (a : Aircraft) (i j tx ty : Nat) (best best' : Behaviour × Nat)
        (mv : Behaviour),
      aisleStep a i j tx ty best mv = some best' → best' ≠ best →
        manhattan tx ty (destA mv i j).1 (destA mv i j).2 < best.2) ∧
    (∀ (a : Aircraft) (i j tx ty : Nat) (bag : Bool) (t : Tile) (d : Nat),
      getTile a i j = some t →
      (t.get_variant = Variant.Aisle ∨ t.get_variant = Variant.Entrance) →
      ¬(ty = j ∧ bag = true) →
      determine_move a i j tx ty bag = some (Behaviour.Wait, d) →
      ∀ mv, (mv = Behaviour.Move_North ∨ mv = Behaviour.Move_South ∨
          mv = Behaviour.Move_East ∨ mv = Behaviour.Move_West) →
        ¬(rowOK mv ty (destA mv i j).2 ∧ accB a i j mv = true ∧
          manhattan tx ty (destA mv i j).1 (destA mv i j).2 <
            min (manhattan tx ty i j) 1000)) := by
  constructor
  · intro a i j tx ty best best' mv h hne
    rcases aisleStep_cases h with rfl | ⟨_, _, _, hlt⟩
    · exact absurd rfl hne
    · exact hlt
  · intro a i j tx ty bag t d ht hv hns h mv hmv
    obtain ⟨b₁, b₂, b₃, b₄, h1, h2, h3, h4, h5⟩ :=
      determine_move_aisle_chain ht hv hns h
    have hw1 : b₁ = (Behaviour.Wait, min (manhattan tx ty i j) 1000) := by
      rw [aisleStep_wait ht] at h1
      exact (Option.some_inj.mp h1).symm
    obtain ⟨hb, hc5⟩ := aisleStep_wait_stable (by decide) h5 rfl
    cases hb
    obtain ⟨hb, hc4⟩ := aisleStep_wait_stable (by decide) h4 rfl
    cases hb
    obtain ⟨hb, hc3⟩ := aisleStep_wait_stable (by decide) h3 rfl
    cases hb
    obtain ⟨hb, hc2⟩ := aisleStep_wait_stable (by decide) h2 rfl
    cases hb
    have hd : d = min (manhattan tx ty i j) 1000 :=
      congrArg Prod.snd hw1
    rw [← hd]
    rcases hmv with rfl | rfl | rfl | rfl
    · exact hc2
    · exact hc3
    · exact hc4
    · exact hc5

/-- Witness for the amended C5: at the cell `(0, 0)` of a fresh 2×1 cabin
with target `(0, 0)` the policy waits, so the East candidate cannot be an
accepted strict improver below the cut-off. -/
theorem C5_amended_wait_only_without_improver_witness :
    ¬(rowOK Behaviour.Move_East 0 (destA Behaviour.Move_East 0 0).2 ∧
      accB (Aircraft.new 2 1) 0 0 Behaviour.Move_East = true ∧
      manhattan 0 0 (destA Behaviour.Move_East 0 0).1
          (destA Behaviour.Move_East 0 0).2 <
        min (manhattan 0 0 0 0) 1000) :=
  C5_amended_wait_only_without_improver.2 (Aircraft.new 2 1) 0 0 0 0 false
    Tile.aisle 0 (by decide) (by decide) (by decide) (by decide)
    Behaviour.Move_East (by decide)

/-- Claim C2 (amended): the state invariant `passer ⇒ Seat ∧ occupier` fails
on reachable states (see the counterexample); what holds is the acceptance
discipline that installs passers from Aisle/Entrance cells: whenever the
policy on an Aisle or Entrance cell returns a directional move whose
destination is occupied and distinct from the current cell, that destination
is a Seat tile with no passer. -/
theorem C2_amended_accepted_occupied_target_is_seat {a : Aircraft}
    {i j tx ty : Nat} {bag : Bool} {t td : Tile} {b : Behaviour} {d : Nat}
    (ht : getTile a i j = some t)
    (hv : t.get_variant = Variant.Aisle ∨ t.get_variant = Variant.Entrance)
    (h : determine_move a i j tx ty bag = some (b, d))
    (hbw : b ≠ Behaviour.Wait) (hbs : b ≠ Behaviour.Stow)
    (hne : destA b i j ≠ (i, j))
    (htd : getTile a (destA b i j).1 (destA b i j).2 = some td)
    (hocc : td.is_occupied = true) :
    td.get_variant = Variant.Seat ∧ td.is_allowing = false := by
  obtain ⟨_, hrest⟩ := determine_move_aisle_props ht hv h
  rcases hrest hbs with hw | ⟨_, _, hacc⟩
  · exact absurd hw hbw
  · obtain ⟨t', ht', hcond⟩ := accB_iff.mp hacc
    obtain rfl : t' = td := by
      rw [htd] at ht'
      exact (Option.some_inj.mp ht').symm
    rcases hcond with hc | hc | hc
    · exact absurd hocc hc
    · exact absurd hc hne
    · exact ⟨hc.2.2, by simpa using hc.2.1⟩

/-- Witness for the amended C2: in the squeeze-past configuration the policy
sends the aisle passenger east into the occupied seat, and that destination
is indeed a non-allowing Seat. -/
theorem C2_amended_accepted_occupied_target_is_seat_witness :
    ((getTile squeezeAir 1 0).getD Tile.aisle).get_variant = Variant.Seat ∧
    ((getTile squeezeAir 1 0).getD Tile.aisle).is_allowing = false :=
  @C2_amended_accepted_occupied_target_is_seat squeezeAir 0 0 1 0 false
    ((getTile squeezeAir 0 0).getD Tile.aisle)
    ((getTile squeezeAir 1 0).getD Tile.aisle)
    Behaviour.Move_East 0
    (by decide) (by decide) (by decide) (by decide) (by decide) (by decide)
    (by decide) (by decide)

/-!
Completion predicate and the driver.
-/

theorem is_complete_fold {a : Aircraft} :
    ∀ (l : List (Nat × Nat)) (acc : Bool) {b : Bool},
      l.foldlM (fun complete s => (getTile a s.1 s.2).map
        fun t => complete && t.is_occupied) acc = some b →
      (b = true ↔ (acc = true ∧ ∀ s ∈ l,
        ∃ t, getTile a s.1 s.2 = some t ∧ t.is_occupied = true)) := by
  intro l
  induction l with
  | nil =>
    intro acc b h
    simp only [List.foldlM_nil, Option.pure_def, Option.some_inj] at h
    subst h
    simp
  | cons s l ih =>
    intro acc b h
    rw [List.foldlM_cons] at h
    cases hg : getTile a s.1 s.2 with
    | none => rw [hg] at h; simp at h
    | some t =>
      rw [hg] at h
      simp only [Option.map_some', Option.bind_eq_bind, Option.some_bind] at h
      have hiff := ih (acc && t.is_occupied) h
      rw [hiff, Bool.and_eq_true]
      constructor
      · rintro ⟨⟨hacc, hocc⟩, hrest⟩
        refine ⟨hacc, ?_⟩
        intro s' hs'
        rcases List.mem_cons.mp hs' with rfl | hs'
        · exact ⟨t, hg, hocc⟩
        · exact hrest s' hs'
      · rintro ⟨hacc, hall⟩
        obtain ⟨t', hg', hocc'⟩ := hall s (List.mem_cons_self s l)
        obtain rfl : t' = t := by rw [hg] at hg'; exact (Option.some_inj.mp hg').symm
        exact ⟨⟨hacc, hocc'⟩, fun s' hs' => hall s' (List.mem_cons_of_mem s hs')⟩

/-- Claim C8: `is_complete()` returns true exactly when every coordinate in
`targeted_seats` has an occupied tile; it is vacuously true when there are no
targeted seats, and it reads only `is_occupied()` of those tiles, never the
identity of the occupant. -/
theorem C8_is_complete_characterisation (a : Aircraft) :
    (∀ b, is_complete a = some b →
      (b = true ↔ ∀ s ∈ a.targeted_seats,
        ∃ t, getTile a s.1 s.2 = some t ∧ t.is_occupied = true)) ∧
    (a.targeted_seats = [] → is_complete a = some true) := by
  constructor
  · intro b h
    unfold is_complete at h
    have := is_complete_fold a.targeted_seats true h
    simpa using this
  · intro h
    unfold is_complete
    rw [h]
    rfl

/-- Witness for C8: a fresh cabin has no targeted seats and is complete. -/
theorem C8_is_complete_characterisation_witness :
    is_complete (Aircraft.new 3 3) = some true :=
  (C8_is_complete_characterisation (Aircraft.new 3 3)).2 rfl

theorem modifyTile_total {a : Aircraft} {x y : Nat} {t : Tile}
    (ht : getTile a x y = some t) (f : Tile → Tile) :
    ∃ a', modifyTile a x y f = some a' ∧ getTile a' x y = some (f t) ∧
      a'.passengers = a.passengers := by
  have hcol : ∃ col, a.layout.get? x = some col ∧ col.get? y = some t := by
    unfold getTile at ht
    cases hc : a.layout.get? x with
    | none => rw [hc] at ht; cases ht
    | some col =>
      rw [hc] at ht
      simp only [Option.some_bind] at ht
      exact ⟨col, rfl, ht⟩
  obtain ⟨col, hc, hcy⟩ := hcol
  have hm : modifyTile a x y f =
      some { a with layout := a.layout.set x (col.set y (f t)) } := by
    unfold modifyTile
    rw [hc]
    simp only [Option.bind_eq_bind, Option.some_bind]
    rw [hcy]
    rfl
  refine ⟨_, hm, ?_, rfl⟩
  rw [getTile_modifyTile hm x y, if_pos ⟨rfl, rfl⟩, ht]
  rfl

/-- Claim C7: `add_passenger` pushes onto the back of the queue, and during
the scan an `Entrance` cell that is not yet updated, empty, with a non-empty
queue admits exactly the passenger at the back of the queue as its occupier
and removes it from the queue — LIFO admission. -/
theorem C7_entrance_admits_queue_tail {a : Aircraft} {x y : Nat} {t : Tile}
    {ps : List Person} {p : Person}
    (ht : getTile a x y = some t)
    (hv : t.get_variant = Variant.Entrance)
    (hupd : t.updated = false)
    (hocc : t.occupier = none)
    (hpass : t.passer = none)
    (hq : a.passengers = ps ++ [p]) :
    (∀ (b : Aircraft) (q : Person),
      (b.add_passenger q).passengers = b.passengers ++ [q]) ∧
    ∃ a', processCell a x y = some a' ∧ a'.passengers = ps ∧
      getTile a' x y = some (Tile.occupy t p) := by
  refine ⟨fun b q => rfl, ?_⟩
  have hguard : ¬ t.has_updated = true ∧ (t.get_variant = Variant.Entrance ∨
      t.get_variant = Variant.Aisle ∨ t.get_variant = Variant.Seat) := by
    constructor
    · unfold Tile.has_updated
      rw [hupd]
      simp
    · exact Or.inl hv
  have hA : phaseA a x y = some a := by
    unfold phaseA
    rw [ht]
    simp only [Option.bind_eq_bind, Option.some_bind]
    rw [hocc]
    rfl
  have hB : phaseB a x y = some a := by
    unfold phaseB
    rw [ht]
    simp only [Option.bind_eq_bind, Option.some_bind]
    have hcond : ¬(t.is_allowing = true ∧ t.pass_count = true) := by
      rintro ⟨hall, _⟩
      unfold Tile.is_allowing at hall
      rw [hpass] at hall
      cases hall
    rw [if_neg hcond]
    rfl
  have hlen : a.passengers.length > 0 := by
    rw [hq]
    simp
  have hoccb : ¬ t.is_occupied = true := by
    unfold Tile.is_occupied
    rw [hocc]
    simp
  have htd : getTile { a with passengers := a.passengers.dropLast } x y
      = some t := ht
  obtain ⟨a', hm, hg', hp'⟩ := modifyTile_total htd fun d => Tile.occupy d p
  have hC : phaseC a x y = some a' := by
    unfold phaseC
    rw [ht]
    simp only [Option.bind_eq_bind, Option.some_bind]
    rw [if_pos ⟨hv, hlen, hoccb⟩, hq, List.getLast?_concat]
    simp only [Option.some_bind]
    rw [← hq]
    exact hm
  refine ⟨a', ?_, ?_, hg'⟩
  · unfold processCell
    rw [ht]
    simp only [Option.bind_eq_bind, Option.some_bind]
    rw [if_pos hguard, hA]
    simp only [Option.some_bind]
    rw [hB]
    simp only [Option.some_bind]
    exact hC
  · have : a'.passengers = a.passengers.dropLast := hp'
    rw [this, hq, List.dropLast_concat]

/-- Witness for C7 on the 1×1 entrance cabin with one queued passenger. -/
theorem C7_entrance_admits_queue_tail_witness :
    (∀ (b : Aircraft) (q : Person),
      (b.add_passenger q).passengers = b.passengers ++ [q]) ∧
    ∃ a', processCell entranceAir 0 0 = some a' ∧
      a'.passengers = [] ∧
      getTile a' 0 0 = some (Tile.occupy Tile.entrance davePerson) :=
  @C7_entrance_admits_queue_tail entranceAir
    0 0 Tile.entrance [] davePerson
    (by decide) (by decide) (by decide) (by decide) (by decide) (by decide)

theorem rtcAux_spec :
    ∀ (n : Nat) (a : Aircraft) (i : Nat), MAX_ITERATIONS - i ≤ n →
      i ≤ MAX_ITERATIONS → ∀ (r : Except String Nat) (a' : Aircraft),
      rtcAux a i = some (r, a') →
      ((∃ k, r = Except.ok k ∧ is_complete a' = some true ∧
        k ≤ MAX_ITERATIONS) ∨
       (∃ e, r = Except.error e ∧ is_complete a' = some false)) := by
  intro n
  induction n with
  | zero =>
    intro a i hn hi r a' h
    unfold rtcAux at h
    cases hc : is_complete a with
    | none => rw [hc] at h; simp at h
    | some c =>
      rw [hc] at h
      simp only [Option.bind_eq_bind, Option.some_bind] at h
      have hcond : ¬(c = false ∧ i < MAX_ITERATIONS) := by
        rintro ⟨_, hlt⟩
        omega
      rw [dif_neg hcond] at h
      by_cases hct : c = true
      · rw [if_pos hct] at h
        simp only [Option.pure_def, Option.some_inj, Prod.mk.injEq] at h
        refine Or.inl ⟨i, h.1.symm, ?_, hi⟩
        rw [← h.2, hc, hct]
      · rw [if_neg hct] at h
        simp only [Option.pure_def, Option.some_inj, Prod.mk.injEq] at h
        refine Or.inr ⟨_, h.1.symm, ?_⟩
        have hcf : c = false := by
          cases c
          · rfl
          · exact absurd rfl hct
        rw [← h.2, hc, hcf]
  | succ n ih =>
    intro a i hn hi r a' h
    unfold rtcAux at h
    cases hc : is_complete a with
    | none => rw [hc] at h; simp at h
    | some c =>
      rw [hc] at h
      simp only [Option.bind_eq_bind, Option.some_bind] at h
      by_cases hcond : c = false ∧ i < MAX_ITERATIONS
      · rw [dif_pos hcond] at h
        cases hu : update a with
        | none => rw [hu] at h; simp at h
        | some a₁ =>
          rw [hu] at h
          simp only [Option.some_bind] at h
          exact ih a₁ (i + 1) (by omega) (by omega) r a' h
      · rw [dif_neg hcond] at h
        by_cases hct : c = true
        · rw [if_pos hct] at h
          simp only [Option.pure_def, Option.some_inj, Prod.mk.injEq] at h
          refine Or.inl ⟨i, h.1.symm, ?_, hi⟩
          rw [← h.2, hc, hct]
        · rw [if_neg hct] at h
          simp only [Option.pure_def, Option.some_inj, Prod.mk.injEq] at h
          refine Or.inr ⟨_, h.1.symm, ?_⟩
          have hcf : c = false := by
            cases c
            · rfl
            · exact absurd rfl hct
          rw [← h.2, hc, hcf]

/-- Claim C6: `run_to_completion()` loops `update()` at most
`MAX_ITERATIONS = 1000` times; whenever it returns `Ok k`, `is_complete()`
holds in the resulting state and `k ≤ 1000`; whenever it returns the
failure value, `is_complete()` is false in the resulting state (the budget
was exhausted without completion). -/
theorem C6_run_to_completion_spec {a : Aircraft} {r : Except String Nat}
    {a' : Aircraft} (h : run_to_completion a = some (r, a')) :
    (∀ k, r = Except.ok k → is_complete a' = some true ∧
      k ≤ MAX_ITERATIONS) ∧
    (∀ e, r = Except.error e → is_complete a' = some false) := by
  unfold run_to_completion at h
  have hspec := rtcAux_spec MAX_ITERATIONS a 0 (by omega) (by omega) r a' h
  constructor
  · intro k hk
    rcases hspec with ⟨k', hk', hcomp, hle⟩ | ⟨e, he, _⟩
    · rw [hk] at hk'
      obtain rfl : k' = k := by
        cases hk'
        rfl
      exact ⟨hcomp, hle⟩
    · rw [hk] at he
      cases he
  · intro e he
    rcases hspec with ⟨k', hk', _, _⟩ | ⟨e', he', hcomp⟩
    · rw [he] at hk'
      cases hk'
    · exact hcomp

/-- Witness for C6: a fresh cabin completes immediately in zero ticks. -/
theorem C6_run_to_completion_spec_witness :
    is_complete (Aircraft.new 7 10) = some true ∧
      (0 : Nat) ≤ MAX_ITERATIONS :=
  (@C6_run_to_completion_spec (Aircraft.new 7 10) (Except.ok 0)
    (Aircraft.new 7 10) (by
      unfold run_to_completion
      unfold rtcAux
      rw [show is_complete (Aircraft.new 7 10) = some true from by decide]
      simp only [Option.bind_eq_bind, Option.some_bind]
      rw [dif_neg (by simp)]
      rfl)).1 0 rfl

/-!
Purity and locality of the movement policy.
-/

theorem aisleStep_congr {a₁ a₂ : Aircraft} {i j tx ty : Nat} {mv : Behaviour}
    (hv : viewT (getTile a₁ (destA mv i j).1 (destA mv i j).2) =
      viewT (getTile a₂ (destA mv i j).1 (destA mv i j).2))
    (best : Behaviour × Nat) :
    aisleStep a₁ i j tx ty best mv = aisleStep a₂ i j tx ty best mv := by
  unfold aisleStep
  cases hg1 : getTile a₁ (destA mv i j).1 (destA mv i j).2 with
  | none =>
    cases hg2 : getTile a₂ (destA mv i j).1 (destA mv i j).2 with
    | none => rfl
    | some t₂ =>
      rw [hg1, hg2] at hv
      simp [viewT] at hv
  | some t₁ =>
    cases hg2 : getTile a₂ (destA mv i j).1 (destA mv i j).2 with
    | none =>
      rw [hg1, hg2] at hv
      simp [viewT] at hv
    | some t₂ =>
      rw [hg1, hg2] at hv
      simp only [viewT, Option.map_some', Option.some_inj, Prod.mk.injEq] at hv
      obtain ⟨e1, e2, e3⟩ := hv
      simp only [Option.bind_eq_bind, Option.some_bind]
      rw [e1, e2, e3]

/-- Claim C10: the movement policy is pure and local.  It is a mathematical
function of the cabin (so it mutates nothing), and its value depends only on
the kind, occupancy and allowing status of the cell `(i, j)` and its four
neighbours (with the saturating north/west destinations at the grid edge):
two cabins agreeing on those five views produce identical results for the
same target and baggage flag. -/
theorem C10_policy_pure_and_local (a₁ a₂ : Aircraft) (i j tx ty : Nat)
    (bag : Bool)
    (h0 : viewT (getTile a₁ i j) = viewT (getTile a₂ i j))
    (hN : viewT (getTile a₁ i (j - 1)) = viewT (getTile a₂ i (j - 1)))
    (hS : viewT (getTile a₁ i (j + 1)) = viewT (getTile a₂ i (j + 1)))
    (hE : viewT (getTile a₁ (i + 1) j) = viewT (getTile a₂ (i + 1) j))
    (hW : viewT (getTile a₁ (i - 1) j) = viewT (getTile a₂ (i - 1) j)) :
    determine_move a₁ i j tx ty bag = determine_move a₂ i j tx ty bag := by
  have sw : ∀ best, aisleStep a₁ i j tx ty best Behaviour.Wait =
      aisleStep a₂ i j tx ty best Behaviour.Wait :=
    fun best => aisleStep_congr h0 best
  have sn : ∀ best, aisleStep a₁ i j tx ty best Behaviour.Move_North =
      aisleStep a₂ i j tx ty best Behaviour.Move_North :=
    fun best => aisleStep_congr hN best
  have ss : ∀ best, aisleStep a₁ i j tx ty best Behaviour.Move_South =
      aisleStep a₂ i j tx ty best Behaviour.Move_South :=
    fun best => aisleStep_congr hS best
  have se : ∀ best, aisleStep a₁ i j tx ty best Behaviour.Move_East =
      aisleStep a₂ i j tx ty best Behaviour.Move_East :=
    fun best => aisleStep_congr hE best
  have sw2 : ∀ best, aisleStep a₁ i j tx ty best Behaviour.Move_West =
      aisleStep a₂ i j tx ty best Behaviour.Move_West :=
    fun best => aisleStep_congr hW best
  unfold determine_move
  cases hg1 : getTile a₁ i j with
  | none =>
    cases hg2 : getTile a₂ i j with
    | none => rfl
    | some t₂ =>
      rw [hg1, hg2] at h0
      simp [viewT] at h0
  | some t₁ =>
    cases hg2 : getTile a₂ i j with
    | none =>
      rw [hg1, hg2] at h0
      simp [viewT] at h0
    | some t₂ =>
      have e1 : t₁.get_variant = t₂.get_variant := by
        rw [hg1, hg2] at h0
        simp only [viewT, Option.map_some', Option.some_inj,
          Prod.mk.injEq] at h0
        exact h0.1
      simp only [Option.bind_eq_bind, Option.some_bind]
      rw [e1]
      simp only [sw, sn, ss, se, sw2]

/-- Witness for C10: a fresh 3×3 cabin and the same cabin with `(2, 2)`
turned into a seat agree on the neighbourhood of `(0, 0)`, and the policy
indeed returns the same move on both. -/
theorem C10_policy_pure_and_local_witness :
    determine_move (Aircraft.new 3 3) 0 0 2 2 false =
      determine_move (((Aircraft.new 3 3).set_tile 2 2 Variant.Seat).getD
        (Aircraft.new 3 3)) 0 0 2 2 false :=
  C10_policy_pure_and_local (Aircraft.new 3 3)
    (((Aircraft.new 3 3).set_tile 2 2 Variant.Seat).getD (Aircraft.new 3 3))
    0 0 2 2 false (by decide) (by decide) (by decide) (by decide) (by decide)

end AircraftSim
